import Mathlib

/-!
Verification of the viewport-driven LOD data engine of the canvas-graph
repository, shallowly embedded in Lean 4.

Embedding conventions:
* JS numbers (Float64 range arguments, timestamps, lods) are modelled as `Rat`;
  stored Float32/Float64 sample values are likewise modelled as `Rat`.  None of
  the verified claims depends on floating-point rounding: every claim compares
  values produced by the engine with values read back from the same buffers, or
  concerns shapes/counts, so the exact-rational model is faithful for them.
* The JS `±Infinity` min/max seed sentinels are modelled by `Option` (`none`
  standing for the not-yet-any-sample sentinel state); a bin accumulator that
  has received at least one sample is `some`.
* The dense binning loop `for(j=start; j<end; j+=chunkSize)` does not terminate
  when `chunkSize ≤ 0`; it is embedded with explicit fuel, `none` meaning the
  loop did not finish (the wrapper supplies fuel that is proved sufficient for
  every `chunkSize ≥ 1`).
* `seedrandom('benchmark-seed')` is an external, deterministic PRNG library; it
  is modelled as an arbitrary fixed stream `rng : Nat → Rat`, with re-seeding
  embedded as restarting consumption at stream position 0.  `Math.sin` and
  `Math.PI` are likewise abstracted as a fixed `sinF : Rat → Rat` and `piR :
  Rat`.
-/

namespace CanvasGraph

/-- ECMAScript `Array.prototype.slice(s, e)` on a list, for integer arguments:
negative indices count from the end, and both indices are clamped to the
length. -/
def jsSlice {α : Type} (l : List α) (s e : Int) : List α :=
  let len : Int := l.length
  let s1 : Int := if s < 0 then max (len + s) 0 else min s len
  let e1 : Int := if e < 0 then max (len + e) 0 else min e len
  (l.drop s1.toNat).take (e1 - s1).toNat

/-- State of `MockServer` (src/src/core/MockServer.js): series count, points per
series, the Float32 value buffers `data`, the Float64 timestamp buffers
`dataX`, and the PRNG stream position (the `seedrandom` state). -/
structure MockServer where
  nSeries : Nat
  nPoints : Nat
  totalPoints : Nat
  data : List (List Rat)
  dataX : List (List Rat)
  rngPos : Nat
deriving DecidableEq

/-- The constructor `new MockServer(nSeries, nPoints)`: empty buffers, freshly
seeded rng. -/
def mkServer (nSeries nPoints : Nat) : MockServer :=
  ⟨nSeries, nPoints, nSeries * nPoints, [], [], 0⟩

/-- `MockServer.resize(nSeries, nPoints)`. -/
def MockServer.resize (s : MockServer) (nSeries nPoints : Nat) : MockServer :=
  { s with nSeries := nSeries, nPoints := nPoints, totalPoints := nSeries * nPoints }

/-- `_binarySearch` from MockServer.js: `m = Math.floor((l+r)/2)`; returns the
split point `l` such that (for a sorted array) everything before it is
`< target`. -/
def binarySearchGo (arr : List Rat) (target : Rat) (l r : Int) : Int :=
  if hlr : l ≤ r then
    let m : Int := ⌊(((l + r : Int) : Rat)) / 2⌋
    if arr.getD m.toNat 0 < target then binarySearchGo arr target (m + 1) r
    else binarySearchGo arr target l (m - 1)
  else l
termination_by (1 + r - l).toNat
decreasing_by
  · have hm : l ≤ ⌊(((l + r : Int) : Rat)) / 2⌋ := by
      rw [Int.le_floor]
      push_cast
      linarith [(by exact_mod_cast hlr : (l : Rat) ≤ (r : Rat))]
    omega
  · have hm : ⌊(((l + r : Int) : Rat)) / 2⌋ ≤ r := by
      have h1 : (((l + r : Int) : Rat)) / 2 ≤ (r : Rat) := by
        push_cast
        linarith [(by exact_mod_cast hlr : (l : Rat) ≤ (r : Rat))]
      have h2 := Int.floor_le_floor h1
      simpa using h2
    omega

/-- `_binarySearch(arr, target)` entry point. -/
def binarySearch (arr : List Rat) (target : Rat) : Int :=
  binarySearchGo arr target 0 ((arr.length : Int) - 1)

/-- The result object of a query: the four `type` tags of MockServer.js with
their payloads.  Dense aggregated bins are `(min, max)` pairs where `none`
stands for the JS `±Infinity` seed value that an empty chunk would leave in
place (interleaving of the flat `[min0,max0,...]` array is modelled by the
pair list). -/
inductive QueryResult where
  | raw (data : List (List Rat)) (start end_ : Int)
  | aggregated (data : List (List (Option Rat × Option Rat))) (start end_ : Int) (step : Int)
  | sparse (data : List (List Rat)) (x : List (List Rat)) (start end_ sampleRate : Rat)
  | sparseAggregated (data : List (List (Rat × Rat))) (start end_ : Rat) (step sampleRate : Rat)
deriving DecidableEq

/-- The JS `result.type` string of a query result. -/
def resultKind : QueryResult → String
  | .raw _ _ _ => "raw"
  | .aggregated _ _ _ _ => "aggregated"
  | .sparse _ _ _ _ _ => "sparse"
  | .sparseAggregated _ _ _ _ _ => "sparse-aggregated"

/-- Inner chunk loop of `_processLegacyRequest`:
`for(k=j;k<chunkEnd;k++){ if(val<min)min=val; if(val>max)max=val; }` with the
accumulators seeded at `Infinity` / `-Infinity` (`none`). -/
def chunkScan (raw : List Rat) (k ce : Int) (mn mx : Option Rat) : Option Rat × Option Rat :=
  if k < ce then
    let val := raw.getD k.toNat 0
    let mn' := match mn with
      | none => some val
      | some m => if val < m then some val else some m
    let mx' := match mx with
      | none => some val
      | some m => if m < val then some val else some m
    chunkScan raw (k + 1) ce mn' mx'
  else (mn, mx)
termination_by (ce - k).toNat
decreasing_by omega

/-- Outer binning loop of `_processLegacyRequest`
(`for(j=start;j<end;j+=chunkSize)`), with fuel; `none` means the loop did not
finish within the given fuel (for `chunkSize ≤ 0` it never does). -/
def legacyBinsAux (raw : List Rat) (j e c : Int) : Nat → Option (List (Option Rat × Option Rat))
  | 0 => if j < e then none else some []
  | fuel + 1 =>
    if j < e then
      let chunkEnd := min e (j + c)
      let pair := chunkScan raw j chunkEnd none none
      match legacyBinsAux raw (j + c) e c fuel with
      | none => none
      | some rest => some (pair :: rest)
    else some []

/-- The per-series loop of the aggregated branch of `_processLegacyRequest`
(`for(i=0;i<this.nSeries;i++)`), propagating non-termination of the inner
loop. -/
def legacySeriesBins (data : List (List Rat)) (j e c : Int) (fuel : Nat) :
    List Nat → Option (List (List (Option Rat × Option Rat)))
  | [] => some []
  | i :: rest =>
    match legacyBinsAux (data.getD i []) j e c fuel with
    | none => none
    | some b =>
      match legacySeriesBins data j e c fuel rest with
      | none => none
      | some bs => some (b :: bs)

/-- The start clamp `Math.max(0, Math.floor(startIndex))`. -/
def denseStart (startIndex : Rat) : Int := max 0 ⌊startIndex⌋

/-- The end clamp `Math.min(this.nPoints, Math.ceil(endIndex))`. -/
def denseEnd (nPoints : Nat) (endIndex : Rat) : Int := min (nPoints : Int) ⌈endIndex⌉

/-- `_processLegacyRequest(startIndex, endIndex, lodLevel)`: clamp, then raw
slice for `lod == 1`, else min/max binning with `chunkSize = floor(lod)`.  The
fuel supplied to the binning loop is sufficient whenever `chunkSize ≥ 1`
(proved below), so `none` models only the non-terminating `chunkSize ≤ 0`
executions. -/
def processLegacyRequest (srv : MockServer) (startIndex endIndex lodLevel : Rat) :
    Option QueryResult :=
  let start : Int := denseStart startIndex
  let end_ : Int := denseEnd srv.nPoints endIndex
  if lodLevel = 1 then
    some (.raw (((List.range srv.nSeries).map fun i => jsSlice (srv.data.getD i []) start end_))
      start end_)
  else
    let chunkSize : Int := ⌊lodLevel⌋
    let fuel : Nat := (end_ - start).toNat + 1
    match legacySeriesBins srv.data start end_ chunkSize fuel (List.range srv.nSeries) with
    | none => none
    | some bins => some (.aggregated bins start end_ chunkSize)

/-- Per-bin accumulator state of the sparse aggregation loop once the bin has
at least one contributing sample: current min, max, timestamp of the previous
contributing sample, and whether an intra-bin gap was detected.  (The JS code
keeps `min=Infinity, max=-Infinity, hasPoints=false, prevPointT=-Infinity`
before the first sample; that sentinel state is `none` at the use site.) -/
structure BinData where
  mn : Rat
  mx : Rat
  prevT : Rat
  gap : Bool
deriving DecidableEq

/-- One contributing sample `(t, val)` folded into the accumulator: the
`val < min` / `val > max` updates, the intra-bin gap check against the
previous contributing timestamp, and the `prevPointT = t` update. -/
def stepIn (sampleRate : Rat) (acc : Option BinData) (t v : Rat) : Option BinData :=
  match acc with
  | none => some ⟨v, v, t, false⟩
  | some d =>
    some ⟨if v < d.mn then v else d.mn,
          if d.mx < v then v else d.mx,
          t,
          d.gap || decide (sampleRate < t - d.prevT)⟩

/-- The scanning `while` loop of one bin: consume list entries while their
timestamp is `< binEndT`, folding in those with timestamp `≥ binStartT`;
return the accumulator and the unconsumed suffix (the advanced `currentPtr`).
-/
def scanBin (binStart binEnd sampleRate : Rat) :
    List (Rat × Rat) → Option BinData → Option BinData × List (Rat × Rat)
  | [], acc => (acc, [])
  | p :: rest, acc =>
    if p.1 < binEnd then
      scanBin binStart binEnd sampleRate rest
        (if binStart ≤ p.1 then stepIn sampleRate acc p.1 p.2 else acc)
    else (acc, p :: rest)

/-- Bin emission: `(0,0)` sentinel for an empty bin; otherwise the collected
`(min, max)`, clamped toward 0 when an intra-bin gap was detected
(`if (0 < min) min = 0; if (0 > max) max = 0`). -/
def emitBin : Option BinData → Rat × Rat
  | none => (0, 0)
  | some d =>
    if d.gap then ((if 0 < d.mn then 0 else d.mn), (if d.mx < 0 then 0 else d.mx))
    else (d.mn, d.mx)

/-- The `for(b=0;b<binCount;b++)` loop of the sparse aggregation: one bin per
step, threading the advancing pointer (list suffix).  (The source's
post-push `prevPointT = rawX[currentPtr - 1]` update is dead code — the
variable is re-initialised at the top of each bin iteration — and is
omitted.) -/
def sparseBinsAux (alignedStart binSize sampleRate : Rat) :
    List (Rat × Rat) → Nat → Nat → List (Rat × Rat)
  | _, _, 0 => []
  | pts, b, remaining + 1 =>
    let binStart := alignedStart + (b : Rat) * binSize
    let scanned := scanBin binStart (binStart + binSize) sampleRate pts none
    emitBin scanned.1 :: sparseBinsAux alignedStart binSize sampleRate scanned.2 (b + 1) remaining

/-- Grid alignment of the first bin:
`Math.floor(startTime / binSizeMs) * binSizeMs`. -/
def alignedStartOf (startTime binSizeMs : Rat) : Rat :=
  ((⌊startTime / binSizeMs⌋ : Int) : Rat) * binSizeMs

/-- `binCount = Math.ceil((endTime - alignedStartTime) / binSizeMs)` (a
negative count runs the bin loop zero times). -/
def binCountOf (startTime endTime binSizeMs : Rat) : Nat :=
  (⌈(endTime - alignedStartOf startTime binSizeMs) / binSizeMs⌉).toNat

/-- `_processRequest(startArg, endArg, lodLevel, sampleRate)`: dense fallback
when no timestamp arrays are present; otherwise sparse raw (with one index of
padding on each side) when `lod == 1 || lod < sampleRate`, else grid-aligned
time-based aggregation.  The per-series point stream is the timestamp/value
zip from the binary-searched start index onward.  (`getData` merely resolves
`_processRequest` after a fixed simulated latency; the asynchronous wrapper
carries no additional logic and is not modelled.) -/
def processRequest (srv : MockServer) (startArg endArg lodLevel sampleRate : Rat) :
    Option QueryResult :=
  if srv.dataX.length = 0 then
    let start : Int := denseStart startArg
    let end_ : Int := denseEnd srv.nPoints endArg
    processLegacyRequest srv (start : Rat) (end_ : Rat) lodLevel
  else
    let startTime := startArg
    let endTime := endArg
    let masterX := srv.dataX.getD 0 []
    let startIndex := binarySearch masterX startTime
    let endIndex := binarySearch masterX endTime
    let rawStartIndex : Int := max 0 (startIndex - 1)
    let rawEndIndex : Int := min (srv.nPoints : Int) (endIndex + 1)
    if lodLevel = 1 ∨ lodLevel < sampleRate then
      some (.sparse
        ((List.range srv.nSeries).map fun i => jsSlice (srv.data.getD i []) rawStartIndex rawEndIndex)
        ((List.range srv.nSeries).map fun i => jsSlice (srv.dataX.getD i []) rawStartIndex rawEndIndex)
        startTime endTime sampleRate)
    else
      let binSizeMs := lodLevel
      let alignedStartTime : Rat := alignedStartOf startTime binSizeMs
      let binCount : Nat := binCountOf startTime endTime binSizeMs
      some (.sparseAggregated
        ((List.range srv.nSeries).map fun i =>
          let pts := (srv.dataX.getD i []).zip (srv.data.getD i [])
          let ptr0 := (binarySearch (srv.dataX.getD i []) alignedStartTime).toNat
          sparseBinsAux alignedStartTime binSizeMs sampleRate (pts.drop ptr0) 0 binCount)
        alignedStartTime endTime binSizeMs sampleRate)

/-- Extractor: the payload list of series `i` of a raw dense result. -/
def rawPayloadAt (r : Option QueryResult) (i : Nat) : Option (List Rat) :=
  match r with
  | some (.raw d _ _) => d[i]?
  | _ => none

/-- Extractor: bin `b` of series `i` of a dense aggregated result. -/
def denseAggPairAt (r : Option QueryResult) (i b : Nat) : Option (Option Rat × Option Rat) :=
  match r with
  | some (.aggregated d _ _ _) => d[i]? >>= fun l => l[b]?
  | _ => none

/-- Extractor: bin `b` of series `i` of a sparse aggregated result. -/
def sparseAggPairAt (r : Option QueryResult) (i b : Nat) : Option (Rat × Rat) :=
  match r with
  | some (.sparseAggregated d _ _ _ _) => d[i]? >>= fun l => l[b]?
  | _ => none

/-- Extractor: the returned `start` of a sparse aggregated result. -/
def sparseAggStart (r : Option QueryResult) : Option Rat :=
  match r with
  | some (.sparseAggregated _ s _ _ _) => some s
  | _ => none

/-- Extractor: the `step` (`binWidth`) of a dense aggregated result. -/
def denseAggStep (r : Option QueryResult) : Option Int :=
  match r with
  | some (.aggregated _ _ _ st) => some st
  | _ => none

/-! ## Viewport (src/src/core/Viewport.js)

Observer callbacks (`notify`) only read the state; they are elided from the
state transition functions, which model exactly the `start`/`end`/domain
updates. -/

structure Viewport where
  totalPoints : Rat
  min : Rat
  max : Rat
  start : Rat
  end_ : Rat
deriving DecidableEq

/-- `new Viewport(totalPoints)`. -/
def Viewport.mkV (totalPoints : Rat) : Viewport :=
  ⟨totalPoints, 0, totalPoints, 0, totalPoints⟩

/-- `Viewport.zoom(factor, pivot)`: scale the range about the pivot, reject
out-of-bounds target widths, clamp by sliding.  The two trailing re-clamp
`if`s of the source are kept verbatim (they are dead after the `max`/`min`). -/
def Viewport.zoom (v : Viewport) (factor pivot : Rat) : Viewport :=
  let currentRange := v.end_ - v.start
  let newRange := currentRange * factor
  if newRange < 10 then v
  else if v.totalPoints < newRange then v
  else
    let pivotPoint := v.start + currentRange * pivot
    let s1 := Max.max 0 (pivotPoint - newRange * pivot)
    let e1 := Min.min v.totalPoints (s1 + newRange)
    let s2 := if s1 < 0 then 0 else s1
    let p := if v.totalPoints < e1 then (v.totalPoints, Max.max 0 (v.totalPoints - newRange))
             else (e1, s2)
    { v with start := p.2, end_ := p.1 }

/-- `Viewport.pan(deltaPoints)`: shift both ends, slide back inside the domain
if an edge is exceeded. -/
def Viewport.pan (v : Viewport) (deltaPoints : Rat) : Viewport :=
  let currentRange := v.end_ - v.start
  let ns := v.start + deltaPoints
  let ne := v.end_ + deltaPoints
  let p1 := if ns < 0 then ((0 : Rat), currentRange) else (ns, ne)
  let p2 := if v.totalPoints < p1.2 then (v.totalPoints - currentRange, v.totalPoints) else p1
  { v with start := p2.1, end_ := p2.2 }

/-- `Viewport.setRange(start, end)`: clamp each endpoint independently. -/
def Viewport.setRange (v : Viewport) (s e : Rat) : Viewport :=
  { v with start := Max.max 0 s, end_ := Min.min v.totalPoints e }

/-- `Viewport.resizeV(totalPoints)`: update the domain upper bound only. -/
def Viewport.resizeV (v : Viewport) (totalPoints : Rat) : Viewport :=
  { v with totalPoints := totalPoints, max := totalPoints }

/-- The invariant claimed for the viewport: the visible range sits inside the
domain and its width is between the configured floor (10) and the full domain
width. -/
def Viewport.invariant (v : Viewport) : Prop :=
  v.min ≤ v.start ∧ v.start < v.end_ ∧ v.end_ ≤ v.max ∧
    10 ≤ v.end_ - v.start ∧ v.end_ - v.start ≤ v.max - v.min

instance (v : Viewport) : Decidable v.invariant := by
  unfold Viewport.invariant
  infer_instance

/-- Domain bookkeeping of the implementation: `min` is the constant 0 and
`max` mirrors `totalPoints` (as set by the constructor and `resize`). -/
def Viewport.wfDom (v : Viewport) : Prop :=
  v.min = 0 ∧ v.max = v.totalPoints

instance (v : Viewport) : Decidable v.wfDom := by
  unfold Viewport.wfDom
  infer_instance

/-! ## Data generation (`generateData` of MockServer.js)

Each profile threads the PRNG stream position explicitly: one `this.rng()`
call consumes one stream index.  `generateData` always starts consumption at
index 0 — that is the `this.rng = seedrandom('benchmark-seed')` re-seed at the
top of the function. -/

section Generation

variable (rng : Nat → Rat) (sinF : Rat → Rat) (piR : Rat)

/-- One `random-walk` series: `y += (rng() - 0.5) * 2` cumulatively. -/
def rwSeries : Nat → Nat → Rat → List Rat
  | _, 0, _ => []
  | pos, n + 1, y =>
    let y' := y + (rng pos - 1/2) * 2
    y' :: rwSeries pos.succ n y'

/-- The `random-walk` outer loop over series (counting down), threading the
stream position. -/
def rwAll : Nat → Nat → Nat → List (List Rat)
  | _, 0, _ => []
  | pos, i + 1, nPoints => rwSeries rng pos nPoints 0 :: rwAll (pos + nPoints) i nPoints

/-- Inner per-segment loop of `variable-sine`: write `sin(j*freq)*amp + noise`
at `offset+j`, stopping (`break`) at the end of the buffer. -/
def vsInner (freq amp : Rat) (offset nPoints : Nat) :
    Nat → Nat → Nat → List Rat → List Rat × Nat
  | 0, _, pos, arr => (arr, pos)
  | count + 1, j, pos, arr =>
    if offset + j < nPoints then
      let noise := (rng pos - 1/2) * (amp * (1/10))
      let v := sinF ((j : Rat) * freq) * amp + noise
      vsInner freq amp offset nPoints count (j + 1) (pos + 1) (arr.set (offset + j) v)
    else (arr, pos)

/-- Segment loop of `variable-sine`, iterating `s = 0..9`: segments 1, 5, 8
have fixed frequency/amplitude for deterministic landmarks; the rest draw both
from the stream. -/
def vsLoop (nPoints segmentSize : Nat) : Nat → Nat → Nat → List Rat → List Rat × Nat
  | 0, _, pos, arr => (arr, pos)
  | count + 1, s, pos, arr =>
    let fa : Rat × Rat × Nat :=
      if s = 1 then (3/2, 1000, pos)
      else if s = 5 then (1/1000, 5, pos)
      else if s = 8 then (1/10, 2000, pos)
      else (1/100 + rng pos * (1/10), 50 + rng (pos + 1) * 200, pos + 2)
    let inner := vsInner rng sinF fa.1 fa.2.1 (s * segmentSize) nPoints segmentSize 0 fa.2.2 arr
    vsLoop nPoints segmentSize count (s + 1) inner.2 inner.1

/-- The `variable-sine` profile: a single series of 10 segments over a
zero-initialised buffer. -/
def varSine (nPoints : Nat) : List Rat × Nat :=
  vsLoop rng sinF nPoints (nPoints / 10) 10 0 0 (List.replicate nPoints 0)

/-- Volatile-region inner loop of `pulse-wave`. -/
def pwVolatile (regionSize offset nPoints : Nat) : Nat → Nat → Nat → List Rat → List Rat × Nat
  | 0, _, pos, arr => (arr, pos)
  | count + 1, j, pos, arr =>
    if offset + j < nPoints then
      let phase := ((j : Rat) / (regionSize : Rat)) * 8
      let pulse : Rat := if (7/10 : Rat) < sinF (phase * piR * 2) then 1500 else -200
      let noise := (rng pos - 1/2) * 400
      pwVolatile regionSize offset nPoints count (j + 1) (pos + 1) (arr.set (offset + j) (pulse + noise))
    else (arr, pos)

/-- Calm-region inner loop of `pulse-wave`. -/
def pwCalm (baseValue : Rat) (regionSize offset nPoints : Nat) :
    Nat → Nat → Nat → List Rat → List Rat × Nat
  | 0, _, pos, arr => (arr, pos)
  | count + 1, j, pos, arr =>
    if offset + j < nPoints then
      let smoothWave := sinF (((j : Rat) / (regionSize : Rat)) * piR) * 30
      let tinyNoise := (rng pos - 1/2) * 5
      pwCalm baseValue regionSize offset nPoints count (j + 1) (pos + 1)
        (arr.set (offset + j) (baseValue + smoothWave + tinyNoise))
    else (arr, pos)

/-- Region loop of `pulse-wave`: every third region is volatile. -/
def pwLoop (regionSize nPoints : Nat) : Nat → Nat → Nat → List Rat → List Rat × Nat
  | 0, _, pos, arr => (arr, pos)
  | count + 1, r, pos, arr =>
    let offset := r * regionSize
    let step :=
      if r % 3 = 0 then pwVolatile rng sinF piR regionSize offset nPoints regionSize 0 pos arr
      else
        let baseValue := ((r : Rat) / 20) * 400 - 200
        pwCalm rng sinF piR baseValue regionSize offset nPoints regionSize 0 pos arr
    pwLoop regionSize nPoints count (r + 1) step.2 step.1

/-- The `pulse-wave` profile: a single series of 20 alternating regions. -/
def pulseWave (nPoints : Nat) : List Rat × Nat :=
  pwLoop rng sinF piR (nPoints / 20) nPoints 20 0 0 (List.replicate nPoints 0)

/-- Per-point loop of one `multi-wave` series: wave + proportional noise +
probabilistic spikes (the spike draw is only made for volatile series, per the
short-circuit `volatilityLevel > 0.5 && this.rng() > 0.98`). -/
def mwPoints (volatility baseFreq baseAmp : Rat) : Nat → Nat → Nat → List Rat × Nat
  | 0, _, pos => ([], pos)
  | count + 1, j, pos =>
    let wave := sinF ((j : Rat) * baseFreq) * baseAmp
    let noiseAmp := volatility * baseAmp * (3/10)
    let noise := (rng pos - 1/2) * noiseAmp
    let sp : Rat × Nat :=
      if 1/2 < volatility then
        if 98/100 < rng (pos + 1) then ((rng (pos + 2) - 1/2) * baseAmp * 2, pos + 3)
        else (0, pos + 2)
      else (0, pos + 1)
    let rest := mwPoints volatility baseFreq baseAmp count (j + 1) sp.2
    ((wave + noise + sp.1) :: rest.1, rest.2)

/-- Series loop of `multi-wave` (`nSeries` is set to 20 before the loop). -/
def mwAll (nSeries nPoints : Nat) : Nat → Nat → Nat → List (List Rat) × Nat
  | 0, _, pos => ([], pos)
  | count + 1, i, pos =>
    let volatility := (i : Rat) / (nSeries : Rat)
    let baseFreq := 1/1000 + volatility * (1/20)
    let baseAmp := 50 + volatility * 1500
    let srs := mwPoints rng sinF volatility baseFreq baseAmp nPoints 0 pos
    let rest := mwAll nSeries nPoints count (i + 1) srs.2
    (srs.1 :: rest.1, rest.2)

/-- Per-point loop of `sparse-sine`: jittered spacing, occasional large gaps,
sine value plus noise; produces the timestamp and value lists. -/
def ssPoints : Nat → Nat → Rat → List Rat × List Rat × Nat
  | 0, pos, _ => ([], [], pos)
  | count + 1, pos, currentTime =>
    let dt := 10 + (rng pos - 1/2) * 2
    let t1 := currentTime + dt
    let g : Rat × Nat :=
      if 199/200 < rng (pos + 1) then (1000 + rng (pos + 2) * 4000, pos + 3)
      else (0, pos + 2)
    let t2 := t1 + g.1
    let val := sinF (t2 * (1/1000)) * 500
    let noise := (rng g.2 - 1/2) * 50
    let rest := ssPoints count (g.2 + 1) t2
    (t2 :: rest.1, (val + noise) :: rest.2.1, rest.2.2)

/-- `generateData(type)` profile dispatch: returns the new `data`, `dataX`,
series count and final stream position.  An unrecognised profile name matches
no branch, leaving the buffers as cleared at function entry. -/
def genProfile (type : String) (nSeries nPoints : Nat) :
    List (List Rat) × List (List Rat) × Nat × Nat :=
  if type = "random-walk" then
    (rwAll rng 0 nSeries nPoints, [], nSeries, nSeries * nPoints)
  else if type = "variable-sine" then
    let r := varSine rng sinF nPoints
    ([r.1], [], 1, r.2)
  else if type = "pulse-wave" then
    let r := pulseWave rng sinF piR nPoints
    ([r.1], [], 1, r.2)
  else if type = "multi-wave" then
    let r := mwAll rng sinF 20 nPoints 20 0 0
    (r.1, [], 20, r.2)
  else if type = "sparse-sine" then
    let r := ssPoints rng sinF nPoints 0 0
    ([r.2.1], [r.1], 1, r.2.2)
  else ([], [], nSeries, 0)

/-- `generateData(type)`: clear the buffers, re-seed the stream (consumption
restarts at index 0), run the profile, update `nSeries` and `totalPoints`. -/
def generateData (type : String) (s : MockServer) : MockServer :=
  let r := genProfile rng sinF piR type s.nSeries s.nPoints
  { s with data := r.1, dataX := r.2.1, nSeries := r.2.2.1,
           totalPoints := r.2.2.1 * s.nPoints, rngPos := r.2.2.2 }

end Generation

/-! ## Specification-side definitions

Direct formalisations of the claims' language, written independently of the
engine's loops; the claim theorems relate the engine's output to these. -/

/-- The minimum of a list of values (`none` for the empty list). -/
def specMin : List Rat → Option Rat
  | [] => none
  | x :: xs => some (xs.foldl Min.min x)

/-- The maximum of a list of values (`none` for the empty list). -/
def specMax : List Rat → Option Rat
  | [] => none
  | x :: xs => some (xs.foldl Max.max x)

/-- The raw value slice of a series over the index interval `[k, ce)` (the
"values of the chunk", read at the same indices the binning loop reads). -/
def sliceVals (raw : List Rat) (k ce : Int) : List Rat :=
  if k < ce then raw.getD k.toNat 0 :: sliceVals raw (k + 1) ce else []
termination_by (ce - k).toNat
decreasing_by omega

/-- The contributing samples of a time window `[a, b)`: all `(timestamp,
value)` pairs of the series whose timestamp lies in the window. -/
def windowOf (pts : List (Rat × Rat)) (a b : Rat) : List (Rat × Rat) :=
  pts.filter fun p => decide (a ≤ p.1) && decide (p.1 < b)

/-- Whether a timestamp list contains a gap larger than `sampleRate` between
two consecutive entries. -/
def hasGapB (sampleRate : Rat) : List Rat → Bool
  | t1 :: t2 :: rest => decide (sampleRate < t2 - t1) || hasGapB sampleRate (t2 :: rest)
  | _ => false

/-- The claimed dense raw payload: the value slice over the clamped index
interval `[max(0,floor(rangeStart)), min(nPoints,ceil(rangeEnd)))`. -/
def claimSlice (l : List Rat) (s e : Rat) (nPoints : Nat) : List Rat :=
  (l.drop (denseStart s).toNat).take (denseEnd nPoints e - denseStart s).toNat

/-! Helper forms of the engine's loops used to state intermediate lemmas. -/

/-- One step of the bin scan on an arbitrary sample (the body of the `while`
loop: fold the sample in only when its timestamp is `≥ binStart`). -/
def scanStep (binStart sampleRate : Rat) (acc : Option BinData) (p : Rat × Rat) : Option BinData :=
  if binStart ≤ p.1 then stepIn sampleRate acc p.1 p.2 else acc

/-- The accumulator a bin ends with after folding a sample run in order. -/
def accOf (sampleRate : Rat) (W : List (Rat × Rat)) : Option BinData :=
  W.foldl (fun a p => stepIn sampleRate a p.1 p.2) none

/-- Gap detection relative to a previous timestamp `t0`, as the scanning loop
accumulates it. -/
def gapFrom (sampleRate : Rat) : Rat → List (Rat × Rat) → Bool
  | _, [] => false
  | t0, p :: rest => (decide (sampleRate < p.1 - t0) || gapFrom sampleRate p.1 rest)

/-- The dense bin list the aggregation loop produces for one series (defined
by recursion on the chunk start; equal to the fuelled loop whenever
`chunkSize ≥ 1`, proved below). -/
def denseBinsSpec (raw : List Rat) (j e c : Int) : List (Option Rat × Option Rat) :=
  if _h : j < e ∧ 1 ≤ c then
    chunkScan raw j (min e (j + c)) none none :: denseBinsSpec raw (j + c) e c
  else []
termination_by (e - j).toNat
decreasing_by omega

/-- One `if (val < min) min = val` update of the chunk scan, on the
`Infinity`-seeded (`Option`) accumulator. -/
def minStep (a : Option Rat) (v : Rat) : Option Rat :=
  match a with
  | none => some v
  | some m => if v < m then some v else some m

/-- One `if (val > max) max = val` update of the chunk scan. -/
def maxStep (a : Option Rat) (v : Rat) : Option Rat :=
  match a with
  | none => some v
  | some m => if m < v then some v else some m

/-- Sortedness of a timestamp/value sample list by timestamp. -/
def ptsSorted (pts : List (Rat × Rat)) : Prop :=
  List.Pairwise (fun p q => p.1 ≤ q.1) pts

instance (pts : List (Rat × Rat)) : Decidable (ptsSorted pts) := by
  unfold ptsSorted
  infer_instance

/-- A concrete pseudorandom stream stand-in used by the closed
counterexamples and witnesses. -/
def rng0 : Nat → Rat := fun n => ((n % 10 : Nat) : Rat) / 10

/-- A concrete stand-in for `Math.sin` used by the closed counterexamples and
witnesses. -/
def sin0 : Rat → Rat := fun x => x / 2

/-- A concrete stand-in for `Math.PI` used by the closed counterexamples and
witnesses. -/
def pi0 : Rat := 314159 / 100000

/-! ## General list lemmas -/

theorem filter_dropWhile_of_imp {α : Type} (p q : α → Bool)
    (h : ∀ x, q x = true → p x = false) :
    ∀ l : List α, (l.dropWhile q).filter p = l.filter p := by
  intro l
  induction l with
  | nil => rfl
  | cons x xs ih =>
    by_cases hq : q x = true
    · rw [List.dropWhile_cons_of_pos hq, ih, List.filter_cons, h x hq]
      simp
    · rw [List.dropWhile_cons_of_neg hq]

theorem filter_drop_of_false {α : Type} (p : α → Bool) :
    ∀ (n : Nat) (l : List α), (∀ (i : Nat) (hi : i < l.length), i < n → p l[i] = false) →
      (l.drop n).filter p = l.filter p := by
  intro n
  induction n with
  | zero => intro l _; rfl
  | succ m ih =>
    intro l hl
    cases l with
    | nil => rfl
    | cons x xs =>
      have hx : p x = false := hl 0 (by simp) (by omega)
      rw [List.drop_succ_cons, ih xs (fun i hi him => hl (i + 1) (by simpa using hi) (by omega)),
        List.filter_cons, hx]
      simp

theorem ptsSorted_zip (X Y : List Rat) (h : List.Pairwise (· ≤ ·) X) :
    ptsSorted (X.zip Y) := by
  unfold ptsSorted
  rw [List.pairwise_iff_getElem]
  intro i j hi hj hij
  rw [List.getElem_zip, List.getElem_zip]
  have hX : j < X.length := by
    have := @List.length_zip _ _ X Y
    omega
  exact List.pairwise_iff_getElem.mp h i j (by omega) hX hij

theorem ptsSorted_all_ge {x : Rat × Rat} {l : List (Rat × Rat)} (h : ptsSorted (x :: l)) :
    ∀ y ∈ l, x.1 ≤ y.1 :=
  (List.pairwise_cons.mp h).1

theorem ptsSorted_dropWhile (p : Rat × Rat → Bool) {l : List (Rat × Rat)} (h : ptsSorted l) :
    ptsSorted (l.dropWhile p) :=
  List.Pairwise.sublist (List.dropWhile_sublist p) h

theorem ptsSorted_drop (n : Nat) {l : List (Rat × Rat)} (h : ptsSorted l) :
    ptsSorted (l.drop n) :=
  List.Pairwise.sublist (List.drop_sublist n l) h

theorem dropWhile_ge (c : Rat) {l : List (Rat × Rat)} (h : ptsSorted l) :
    ∀ p ∈ l.dropWhile (fun x => decide (x.1 < c)), c ≤ p.1 := by
  induction l with
  | nil => intro p hp; simp at hp
  | cons x xs ih =>
    by_cases hx : x.1 < c
    · rw [List.dropWhile_cons_of_pos (by simpa using hx)]
      exact ih (List.Pairwise.sublist (List.sublist_cons_self x xs) h)
    · rw [List.dropWhile_cons_of_neg (by simpa using hx)]
      intro p hp
      rcases List.mem_cons.mp hp with rfl | hmem
      · linarith
      · exact le_trans (by linarith) (ptsSorted_all_ge h p hmem)

theorem takeWhile_eq_filter_sorted (be : Rat) {l : List (Rat × Rat)} (h : ptsSorted l) :
    l.takeWhile (fun x => decide (x.1 < be)) = l.filter (fun x => decide (x.1 < be)) := by
  induction l with
  | nil => rfl
  | cons x xs ih =>
    by_cases hx : x.1 < be
    · rw [List.takeWhile_cons_of_pos (by simpa using hx),
        List.filter_cons_of_pos (by simpa using hx),
        ih (List.Pairwise.sublist (List.sublist_cons_self x xs) h)]
    · rw [List.takeWhile_cons_of_neg (by simpa using hx),
        List.filter_cons_of_neg (by simpa using hx)]
      symm
      rw [List.filter_eq_nil_iff]
      intro y hy
      have := ptsSorted_all_ge h y hy
      simp only [decide_eq_true_eq]
      linarith

theorem minIf (v m : Rat) : (if v < m then v else m) = Min.min m v := by
  rcases lt_or_le v m with h | h
  · rw [if_pos h, min_eq_right (le_of_lt h)]
  · rw [if_neg (not_lt.mpr h), min_eq_left h]

theorem maxIf (v m : Rat) : (if m < v then v else m) = Max.max m v := by
  rcases lt_or_le m v with h | h
  · rw [if_pos h, max_eq_right (le_of_lt h)]
  · rw [if_neg (not_lt.mpr h), max_eq_left h]

/-! ## Correctness of `_binarySearch` on sorted arrays -/

theorem pairwise_getD_mono (X : List Rat) (h : List.Pairwise (· ≤ ·) X) :
    ∀ i j : Nat, i ≤ j → j < X.length → X.getD i 0 ≤ X.getD j 0 := by
  intro i j hij hj
  rw [List.getD_eq_getElem X 0 (by omega), List.getD_eq_getElem X 0 hj]
  rcases Nat.eq_or_lt_of_le hij with h2 | h2
  · subst h2; exact le_refl _
  · exact List.pairwise_iff_getElem.mp h i j (by omega) hj h2

theorem binarySearchGo_correct (arr : List Rat) (t : Rat)
    (hmono : ∀ i j : Nat, i ≤ j → j < arr.length → arr.getD i 0 ≤ arr.getD j 0)
    (l r : Int) (hl : 0 ≤ l) (hr : r < (arr.length : Int)) (hlr1 : l ≤ r + 1)
    (hlow : ∀ i : Nat, (i : Int) < l → arr.getD i 0 < t)
    (hhigh : ∀ i : Nat, r < (i : Int) → i < arr.length → t ≤ arr.getD i 0) :
    l ≤ binarySearchGo arr t l r ∧ binarySearchGo arr t l r ≤ r + 1 ∧
      (∀ i : Nat, (i : Int) < binarySearchGo arr t l r → arr.getD i 0 < t) ∧
      (∀ i : Nat, binarySearchGo arr t l r ≤ (i : Int) → i < arr.length →
        t ≤ arr.getD i 0) := by
  by_cases hlr : l ≤ r
  · have hml : l ≤ ⌊(((l + r : Int) : Rat)) / 2⌋ := by
      rw [Int.le_floor]
      push_cast
      linarith [(by exact_mod_cast hlr : (l : Rat) ≤ (r : Rat))]
    have hmr : ⌊(((l + r : Int) : Rat)) / 2⌋ ≤ r := by
      have h1 : (((l + r : Int) : Rat)) / 2 ≤ (r : Rat) := by
        push_cast
        linarith [(by exact_mod_cast hlr : (l : Rat) ≤ (r : Rat))]
      simpa using Int.floor_le_floor h1
    rw [binarySearchGo, dif_pos hlr]
    by_cases hcmp : arr.getD (⌊(((l + r : Int) : Rat)) / 2⌋).toNat 0 < t
    · rw [if_pos hcmp]
      have hlow2 : ∀ i : Nat, (i : Int) < ⌊(((l + r : Int) : Rat)) / 2⌋ + 1 →
          arr.getD i 0 < t := by
        intro i hi
        by_cases hil : (i : Int) < l
        · exact hlow i hil
        · have hle : arr.getD i 0 ≤ arr.getD (⌊(((l + r : Int) : Rat)) / 2⌋).toNat 0 :=
            hmono i (⌊(((l + r : Int) : Rat)) / 2⌋).toNat (by omega) (by omega)
          exact lt_of_le_of_lt hle hcmp
      obtain ⟨h1, h2, h3, h4⟩ := binarySearchGo_correct arr t hmono
        (⌊(((l + r : Int) : Rat)) / 2⌋ + 1) r (by omega) hr (by omega) hlow2 hhigh
      exact ⟨by omega, h2, h3, h4⟩
    · rw [if_neg hcmp]
      have hhigh2 : ∀ i : Nat, ⌊(((l + r : Int) : Rat)) / 2⌋ - 1 < (i : Int) →
          i < arr.length → t ≤ arr.getD i 0 := by
        intro i hi hilen
        have hge : arr.getD (⌊(((l + r : Int) : Rat)) / 2⌋).toNat 0 ≤ arr.getD i 0 :=
          hmono (⌊(((l + r : Int) : Rat)) / 2⌋).toNat i (by omega) hilen
        exact le_trans (not_lt.mp hcmp) hge
      obtain ⟨h1, h2, h3, h4⟩ := binarySearchGo_correct arr t hmono l
        (⌊(((l + r : Int) : Rat)) / 2⌋ - 1) hl (by omega) (by omega) hlow hhigh2
      exact ⟨h1, by omega, h3, h4⟩
  · rw [binarySearchGo, dif_neg hlr]
    exact ⟨le_refl l, by omega, hlow, fun i hi hilen => hhigh i (by omega) hilen⟩
termination_by (1 + r - l).toNat
decreasing_by
  · omega
  · omega

theorem binarySearch_correct (arr : List Rat) (t : Rat)
    (hsort : List.Pairwise (· ≤ ·) arr) :
    0 ≤ binarySearch arr t ∧ binarySearch arr t ≤ (arr.length : Int) ∧
      (∀ i : Nat, (i : Int) < binarySearch arr t → arr.getD i 0 < t) ∧
      (∀ i : Nat, binarySearch arr t ≤ (i : Int) → i < arr.length →
        t ≤ arr.getD i 0) := by
  have h := binarySearchGo_correct arr t (pairwise_getD_mono arr hsort) 0
    ((arr.length : Int) - 1) (le_refl 0) (by omega) (by omega)
    (fun i hi => absurd hi (by omega))
    (fun i hi h2 => absurd hi (by omega))
  unfold binarySearch
  obtain ⟨h1, h2, h3, h4⟩ := h
  exact ⟨h1, by omega, h3, h4⟩

/-! ## Dense aggregation: the chunk loop computes the slice min/max -/

theorem chunkScan_eq_foldl (raw : List Rat) (k ce : Int) (mn mx : Option Rat) :
    chunkScan raw k ce mn mx =
      ((sliceVals raw k ce).foldl minStep mn, (sliceVals raw k ce).foldl maxStep mx) := by
  rw [chunkScan, sliceVals]
  by_cases h : k < ce
  · rw [if_pos h, if_pos h]
    simp only [List.foldl_cons]
    exact chunkScan_eq_foldl raw (k + 1) ce _ _
  · rw [if_neg h, if_neg h]
    simp
termination_by (ce - k).toNat
decreasing_by omega

theorem minStep_some (m v : Rat) : minStep (some m) v = some (Min.min m v) := by
  by_cases h : v < m
  · simp [minStep, h, min_eq_right (le_of_lt h)]
  · simp [minStep, h, min_eq_left (not_lt.mp h)]

theorem maxStep_some (m v : Rat) : maxStep (some m) v = some (Max.max m v) := by
  by_cases h : m < v
  · simp [maxStep, h, max_eq_right (le_of_lt h)]
  · simp [maxStep, h, max_eq_left (not_lt.mp h)]

theorem foldl_minStep_some (xs : List Rat) : ∀ m : Rat,
    xs.foldl minStep (some m) = some (xs.foldl Min.min m) := by
  induction xs with
  | nil => intro m; rfl
  | cons v vs ih =>
    intro m
    simp only [List.foldl_cons]
    rw [minStep_some, ih]

theorem foldl_maxStep_some (xs : List Rat) : ∀ m : Rat,
    xs.foldl maxStep (some m) = some (xs.foldl Max.max m) := by
  induction xs with
  | nil => intro m; rfl
  | cons v vs ih =>
    intro m
    simp only [List.foldl_cons]
    rw [maxStep_some, ih]

theorem foldl_minStep_none (xs : List Rat) : xs.foldl minStep none = specMin xs := by
  cases xs with
  | nil => rfl
  | cons x xs =>
    simp only [List.foldl_cons]
    rw [show minStep none x = some x from rfl, foldl_minStep_some]
    rfl

theorem foldl_maxStep_none (xs : List Rat) : xs.foldl maxStep none = specMax xs := by
  cases xs with
  | nil => rfl
  | cons x xs =>
    simp only [List.foldl_cons]
    rw [show maxStep none x = some x from rfl, foldl_maxStep_some]
    rfl

theorem chunkScan_spec (raw : List Rat) (k ce : Int) :
    chunkScan raw k ce none none =
      (specMin (sliceVals raw k ce), specMax (sliceVals raw k ce)) := by
  rw [chunkScan_eq_foldl, foldl_minStep_none, foldl_maxStep_none]

theorem legacyBinsAux_some (raw : List Rat) (e c : Int) (hc : 1 ≤ c) :
    ∀ (fuel : Nat) (j : Int), (e - j).toNat < fuel →
      legacyBinsAux raw j e c fuel = some (denseBinsSpec raw j e c) := by
  intro fuel
  induction fuel with
  | zero => intro j h; omega
  | succ n ih =>
    intro j hfuel
    by_cases hj : j < e
    · rw [legacyBinsAux, if_pos hj, denseBinsSpec, dif_pos ⟨hj, hc⟩]
      rw [ih (j + c) (by omega)]
    · rw [legacyBinsAux, if_neg hj, denseBinsSpec, dif_neg (by tauto)]

theorem legacyBinsAux_none (raw : List Rat) (e c : Int) (hc : c ≤ 0) :
    ∀ (fuel : Nat) (j : Int), j < e → legacyBinsAux raw j e c fuel = none := by
  intro fuel
  induction fuel with
  | zero => intro j hj; rw [legacyBinsAux, if_pos hj]
  | succ n ih =>
    intro j hj
    rw [legacyBinsAux, if_pos hj, ih (j + c) (by omega)]

theorem legacySeriesBins_some (data : List (List Rat)) (j e c : Int) (fuel : Nat)
    (hc : 1 ≤ c) (hfuel : (e - j).toNat < fuel) :
    ∀ is : List Nat, legacySeriesBins data j e c fuel is =
      some (is.map fun i => denseBinsSpec (data.getD i []) j e c) := by
  intro is
  induction is with
  | nil => rfl
  | cons i rest ih =>
    rw [legacySeriesBins, legacyBinsAux_some _ _ _ hc fuel j hfuel, ih]
    rfl

theorem denseBinsSpec_get (raw : List Rat) (e c : Int) (hc : 1 ≤ c) :
    ∀ (b : Nat) (j : Int), j + (b : Int) * c < e →
      (denseBinsSpec raw j e c)[b]? =
        some (chunkScan raw (j + (b : Int) * c) (min e (j + (b : Int) * c + c)) none none) := by
  intro b
  induction b with
  | zero =>
    intro j hb
    simp only [Nat.cast_zero, zero_mul, add_zero] at hb ⊢
    rw [denseBinsSpec, dif_pos ⟨hb, hc⟩, List.getElem?_cons_zero]
  | succ b ih =>
    intro j hb
    have hbc : 0 ≤ (b : Int) * c := mul_nonneg (by positivity) (by omega)
    push_cast at hb
    rw [add_one_mul] at hb
    have hj : j < e := by omega
    rw [denseBinsSpec, dif_pos ⟨hj, hc⟩, List.getElem?_cons_succ]
    have hb2 : (j + c) + (b : Int) * c < e := by omega
    rw [ih (j + c) hb2,
      show (j + c) + (b : Int) * c = j + (((b + 1 : Nat)) : Int) * c from by push_cast; ring]

theorem denseBinsSpec_get_none (raw : List Rat) (e c : Int) :
    ∀ (b : Nat) (j : Int), e ≤ j + (b : Int) * c →
      (denseBinsSpec raw j e c)[b]? = none := by
  intro b
  induction b with
  | zero =>
    intro j hb
    simp only [Nat.cast_zero, zero_mul, add_zero] at hb
    rw [denseBinsSpec, dif_neg (by omega)]
    rfl
  | succ b ih =>
    intro j hb
    push_cast at hb
    rw [add_one_mul] at hb
    by_cases hj : j < e ∧ 1 ≤ c
    · rw [denseBinsSpec, dif_pos hj, List.getElem?_cons_succ]
      exact ih (j + c) (by omega)
    · rw [denseBinsSpec, dif_neg hj]
      rfl

/-! ## Sparse aggregation: the bin scan computes window min/max with gap
handling -/

theorem scanBin_eq (binStart binEnd sr : Rat) :
    ∀ (pts : List (Rat × Rat)) (acc : Option BinData),
      scanBin binStart binEnd sr pts acc =
        ((pts.takeWhile fun p => decide (p.1 < binEnd)).foldl (scanStep binStart sr) acc,
          pts.dropWhile fun p => decide (p.1 < binEnd)) := by
  intro pts
  induction pts with
  | nil => intro acc; simp [scanBin]
  | cons p rest ih =>
    intro acc
    by_cases hp : p.1 < binEnd
    · rw [scanBin, if_pos hp, ih, List.takeWhile_cons_of_pos (by simpa using hp),
        List.dropWhile_cons_of_pos (by simpa using hp), List.foldl_cons]
      rfl
    · rw [scanBin, if_neg hp, List.takeWhile_cons_of_neg (by simpa using hp),
        List.dropWhile_cons_of_neg (by simpa using hp)]
      rfl

theorem foldl_scanStep_eq_stepIn (binStart sr : Rat) :
    ∀ (W : List (Rat × Rat)) (acc : Option BinData), (∀ p ∈ W, binStart ≤ p.1) →
      W.foldl (scanStep binStart sr) acc = W.foldl (fun a p => stepIn sr a p.1 p.2) acc := by
  intro W
  induction W with
  | nil => intro acc _; rfl
  | cons p rest ih =>
    intro acc hall
    rw [List.foldl_cons, List.foldl_cons,
      show scanStep binStart sr acc p = stepIn sr acc p.1 p.2 from
        if_pos (hall p (List.mem_cons_self p rest))]
    exact ih _ (fun q hq => hall q (List.mem_cons_of_mem p hq))

theorem foldl_stepIn_char (sr : Rat) :
    ∀ (ps : List (Rat × Rat)) (d : BinData),
      ps.foldl (fun a p => stepIn sr a p.1 p.2) (some d) =
        some ⟨ps.foldl (fun m p => Min.min m p.2) d.mn,
              ps.foldl (fun m p => Max.max m p.2) d.mx,
              (ps.map Prod.fst).getLastD d.prevT,
              d.gap || gapFrom sr d.prevT ps⟩ := by
  intro ps
  induction ps with
  | nil => intro d; cases d; simp [gapFrom]
  | cons p rest ih =>
    intro d
    rw [List.foldl_cons,
      show stepIn sr (some d) p.1 p.2 =
        some ⟨Min.min d.mn p.2, Max.max d.mx p.2, p.1,
          d.gap || decide (sr < p.1 - d.prevT)⟩ from by
        rw [stepIn, minIf, maxIf],
      ih]
    simp only [List.foldl_cons, List.map_cons, List.getLastD_cons, gapFrom, Bool.or_assoc]

theorem accOf_char (sr t v : Rat) (rest : List (Rat × Rat)) :
    accOf sr ((t, v) :: rest) =
      some ⟨rest.foldl (fun m p => Min.min m p.2) v,
            rest.foldl (fun m p => Max.max m p.2) v,
            (rest.map Prod.fst).getLastD t,
            gapFrom sr t rest⟩ := by
  rw [accOf, List.foldl_cons,
    show stepIn sr none t v = some ⟨v, v, t, false⟩ from rfl, foldl_stepIn_char]
  simp

theorem specMin_window (t v : Rat) (rest : List (Rat × Rat)) :
    specMin (((t, v) :: rest).map Prod.snd) =
      some (rest.foldl (fun m p => Min.min m p.2) v) := by
  rw [List.map_cons, specMin, List.foldl_map]

theorem specMax_window (t v : Rat) (rest : List (Rat × Rat)) :
    specMax (((t, v) :: rest).map Prod.snd) =
      some (rest.foldl (fun m p => Max.max m p.2) v) := by
  rw [List.map_cons, specMax, List.foldl_map]

theorem hasGapB_gapFrom (sr : Rat) :
    ∀ (rest : List (Rat × Rat)) (t0 : Rat),
      hasGapB sr (t0 :: rest.map Prod.fst) = gapFrom sr t0 rest := by
  intro rest
  induction rest with
  | nil => intro t0; rfl
  | cons p ps ih =>
    intro t0
    rw [List.map_cons, hasGapB, ih, gapFrom]

theorem emitBin_gap (d : BinData) (hgap : d.gap = true) :
    emitBin (some d) = (Min.min d.mn 0, Max.max d.mx 0) := by
  rw [emitBin, if_pos hgap]
  have h1 : (if 0 < d.mn then (0 : Rat) else d.mn) = Min.min d.mn 0 := by
    rcases lt_or_le 0 d.mn with h | h
    · rw [if_pos h, min_eq_right (le_of_lt h)]
    · rw [if_neg (not_lt.mpr h), min_eq_left h]
  have h2 : (if d.mx < 0 then (0 : Rat) else d.mx) = Max.max d.mx 0 := by
    rcases lt_or_le d.mx 0 with h | h
    · rw [if_pos h, max_eq_right (le_of_lt h)]
    · rw [if_neg (not_lt.mpr h), max_eq_left h]
  rw [h1, h2]

theorem sparseBinsAux_get (alignedStart binSize sr : Rat) (hsz : 0 ≤ binSize) :
    ∀ (remaining k b : Nat) (pts : List (Rat × Rat)), ptsSorted pts →
      (∀ p ∈ pts, alignedStart + (b : Rat) * binSize ≤ p.1) → k < remaining →
      (sparseBinsAux alignedStart binSize sr pts b remaining)[k]? =
        some (emitBin (accOf sr (windowOf pts
          (alignedStart + ((b + k : Nat) : Rat) * binSize)
          (alignedStart + ((b + k : Nat) : Rat) * binSize + binSize)))) := by
  intro remaining
  induction remaining with
  | zero => intro k b pts _ _ hk; omega
  | succ n ih =>
    intro k b pts hsort hge hk
    rw [sparseBinsAux]
    cases k with
    | zero =>
      rw [List.getElem?_cons_zero]
      have hscan := scanBin_eq (alignedStart + (b : Rat) * binSize)
        (alignedStart + (b : Rat) * binSize + binSize) sr pts none
      have htake := takeWhile_eq_filter_sorted
        (alignedStart + (b : Rat) * binSize + binSize) hsort
      have hwin : (pts.filter fun p =>
          decide (p.1 < alignedStart + (b : Rat) * binSize + binSize)) =
          windowOf pts (alignedStart + (b : Rat) * binSize)
            (alignedStart + (b : Rat) * binSize + binSize) := by
        rw [windowOf]
        refine List.filter_congr ?_
        intro p hp
        have := hge p hp
        rw [decide_eq_true (show alignedStart + (b : Rat) * binSize ≤ p.1 by linarith),
          Bool.true_and]
      have hmem : ∀ p ∈ windowOf pts (alignedStart + (b : Rat) * binSize)
          (alignedStart + (b : Rat) * binSize + binSize),
          alignedStart + (b : Rat) * binSize ≤ p.1 := by
        intro p hp
        have := List.of_mem_filter hp
        simp only [Bool.and_eq_true, decide_eq_true_eq] at this
        exact this.1
      rw [hscan, htake, hwin, foldl_scanStep_eq_stepIn _ _ _ none hmem]
      rw [show (b + 0 : Nat) = b from rfl]
      rfl
    | succ k2 =>
      rw [List.getElem?_cons_succ]
      have hscan := scanBin_eq (alignedStart + (b : Rat) * binSize)
        (alignedStart + (b : Rat) * binSize + binSize) sr pts none
      rw [hscan]
      have hsort2 : ptsSorted (pts.dropWhile fun p =>
          decide (p.1 < alignedStart + (b : Rat) * binSize + binSize)) :=
        ptsSorted_dropWhile _ hsort
      have hge2 : ∀ p ∈ (pts.dropWhile fun p =>
          decide (p.1 < alignedStart + (b : Rat) * binSize + binSize)),
          alignedStart + ((b + 1 : Nat) : Rat) * binSize ≤ p.1 := by
        intro p hp
        have := dropWhile_ge (alignedStart + (b : Rat) * binSize + binSize) hsort p hp
        have he : alignedStart + ((b + 1 : Nat) : Rat) * binSize =
            alignedStart + (b : Rat) * binSize + binSize := by
          push_cast
          ring
        linarith [he ▸ this]
      rw [ih k2 (b + 1) _ hsort2 hge2 (by omega)]
      have hwin2 : windowOf (pts.dropWhile fun p =>
            decide (p.1 < alignedStart + (b : Rat) * binSize + binSize))
          (alignedStart + ((b + 1 + k2 : Nat) : Rat) * binSize)
          (alignedStart + ((b + 1 + k2 : Nat) : Rat) * binSize + binSize) =
          windowOf pts
          (alignedStart + ((b + 1 + k2 : Nat) : Rat) * binSize)
          (alignedStart + ((b + 1 + k2 : Nat) : Rat) * binSize + binSize) := by
        rw [windowOf, windowOf]
        refine filter_dropWhile_of_imp _ _ ?_ pts
        intro x hx
        simp only [decide_eq_true_eq] at hx
        have hle : alignedStart + (b : Rat) * binSize + binSize ≤
            alignedStart + ((b + 1 + k2 : Nat) : Rat) * binSize := by
          push_cast
          nlinarith [mul_nonneg (by positivity : (0:Rat) ≤ (k2 : Rat)) hsz]
        simp only [Bool.and_eq_false_iff, decide_eq_false_iff_not, not_le]
        left
        linarith
      rw [hwin2, show b + 1 + k2 = b + (k2 + 1) from by omega]


/-! ## Unfolding lemmas for the query dispatcher -/

theorem denseStart_idem (s : Rat) : denseStart ((denseStart s : Int) : Rat) = denseStart s := by
  rw [denseStart, Int.floor_intCast, denseStart, ← max_assoc, max_self]

theorem denseEnd_idem (n : Nat) (e : Rat) :
    denseEnd n ((denseEnd n e : Int) : Rat) = denseEnd n e := by
  rw [denseEnd, Int.ceil_intCast, denseEnd, ← min_assoc, min_self]

theorem processRequest_dense (srv : MockServer) (s e lod sr : Rat) (hdx : srv.dataX = []) :
    processRequest srv s e lod sr =
      processLegacyRequest srv ((denseStart s : Int) : Rat)
        ((denseEnd srv.nPoints e : Int) : Rat) lod := by
  rw [processRequest, if_pos (by rw [hdx]; rfl)]

theorem processRequest_dense_raw (srv : MockServer) (s e sr : Rat) (hdx : srv.dataX = []) :
    processRequest srv s e 1 sr =
      some (.raw ((List.range srv.nSeries).map fun i =>
          jsSlice (srv.data.getD i []) (denseStart s) (denseEnd srv.nPoints e))
        (denseStart s) (denseEnd srv.nPoints e)) := by
  rw [processRequest_dense srv s e 1 sr hdx, processLegacyRequest]
  simp only [denseStart_idem, denseEnd_idem, if_pos rfl]
  exact if_pos trivial

theorem processRequest_dense_agg (srv : MockServer) (s e lod sr : Rat) (hdx : srv.dataX = [])
    (hlod : lod ≠ 1) (hc : 1 ≤ ⌊lod⌋) :
    processRequest srv s e lod sr =
      some (.aggregated ((List.range srv.nSeries).map fun i =>
          denseBinsSpec (srv.data.getD i []) (denseStart s) (denseEnd srv.nPoints e) ⌊lod⌋)
        (denseStart s) (denseEnd srv.nPoints e) ⌊lod⌋) := by
  rw [processRequest_dense srv s e lod sr hdx, processLegacyRequest]
  simp only [denseStart_idem, denseEnd_idem, if_neg hlod]
  rw [legacySeriesBins_some _ _ _ _ _ hc (by omega)]

theorem processRequest_sparse_agg (srv : MockServer) (s e lod sr : Rat)
    (hdx : srv.dataX.length ≠ 0) (h1 : lod ≠ 1) (hsr : ¬ lod < sr) :
    processRequest srv s e lod sr =
      some (.sparseAggregated
        ((List.range srv.nSeries).map fun i =>
          sparseBinsAux (alignedStartOf s lod) lod sr
            (((srv.dataX.getD i []).zip (srv.data.getD i [])).drop
              (binarySearch (srv.dataX.getD i []) (alignedStartOf s lod)).toNat)
            0 (binCountOf s e lod))
        (alignedStartOf s lod) e lod sr) := by
  rw [processRequest, if_neg hdx, if_neg (not_or.mpr ⟨h1, hsr⟩)]

theorem processRequest_sparse_raw_kind (srv : MockServer) (s e lod sr : Rat)
    (hdx : srv.dataX.length ≠ 0) (hor : lod = 1 ∨ lod < sr) :
    Option.map resultKind (processRequest srv s e lod sr) = some "sparse" := by
  rw [processRequest, if_neg hdx, if_pos hor]
  rfl

/-! ## Generation shape lemmas -/

theorem rwSeries_length (rng : Nat → Rat) :
    ∀ (n pos : Nat) (y : Rat), (rwSeries rng pos n y).length = n := by
  intro n
  induction n with
  | zero => intro pos y; rfl
  | succ m ih => intro pos y; rw [rwSeries]; simp [ih]

theorem rwAll_length (rng : Nat → Rat) (nPoints : Nat) :
    ∀ (count pos : Nat), (rwAll rng pos count nPoints).length = count := by
  intro count
  induction count with
  | zero => intro pos; rfl
  | succ m ih => intro pos; rw [rwAll]; simp [ih]

theorem rwAll_mem_length (rng : Nat → Rat) (nPoints : Nat) :
    ∀ (count pos : Nat) (l : List Rat), l ∈ rwAll rng pos count nPoints →
      l.length = nPoints := by
  intro count
  induction count with
  | zero => intro pos l hl; simp [rwAll] at hl
  | succ m ih =>
    intro pos l hl
    rw [rwAll] at hl
    rcases List.mem_cons.mp hl with rfl | hmem
    · exact rwSeries_length rng nPoints pos 0
    · exact ih (pos + nPoints) l hmem

theorem mwAll_fst_length (rng : Nat → Rat) (sinF : Rat → Rat) (nSeries nPoints : Nat) :
    ∀ (count i pos : Nat), (mwAll rng sinF nSeries nPoints count i pos).1.length = count := by
  intro count
  induction count with
  | zero => intro i pos; rfl
  | succ m ih => intro i pos; rw [mwAll]; simp [ih]

theorem genProfile_unknown (rng : Nat → Rat) (sinF : Rat → Rat) (piR : Rat)
    (type : String) (nSeries nPoints : Nat)
    (h1 : type ≠ "random-walk") (h2 : type ≠ "variable-sine") (h3 : type ≠ "pulse-wave")
    (h4 : type ≠ "multi-wave") (h5 : type ≠ "sparse-sine") :
    genProfile rng sinF piR type nSeries nPoints = ([], [], nSeries, 0) := by
  rw [genProfile, if_neg h1, if_neg h2, if_neg h3, if_neg h4, if_neg h5]

/-! ## Claim C6 (Viewport invariant) -/

/-- C6 (counterexample): the claimed invariant is not preserved by `setRange`:
from the freshly constructed viewport over `[0,1000]` (which satisfies the
invariant), `setRange(0, 5)` produces a visible width of 5, below the
configured floor of 10. -/
theorem c6_counterexample :
    (Viewport.mkV 1000).invariant ∧ ¬ ((Viewport.mkV 1000).setRange 0 5).invariant := by
  constructor
  · norm_num [Viewport.mkV, Viewport.invariant]
  · norm_num [Viewport.mkV, Viewport.invariant, Viewport.setRange, max_def, min_def]

/-- C6 (amended): with the domain bookkeeping of the implementation
(`min = 0`, `max = totalPoints`), `zoom` with a pivot fraction in `[0,1]` and
`pan` with an arbitrary delta preserve the invariant
`min ≤ start < end ≤ max` with width in `[10, max - min]`; `setRange` (which
only clamps each endpoint, as the counterexample shows) and `resize` (which
does not touch `start`/`end`) do not. -/
theorem c6_amended (v : Viewport) (hw : v.wfDom) (hv : v.invariant) :
    (∀ f p : Rat, 0 ≤ p → p ≤ 1 → (v.zoom f p).invariant ∧ (v.zoom f p).wfDom) ∧
    (∀ d : Rat, (v.pan d).invariant ∧ (v.pan d).wfDom) := by
  obtain ⟨hmin, hmax⟩ := hw
  obtain ⟨h1, h2, h3, h4, h5⟩ := hv
  have H1 : 0 ≤ v.start := by rw [hmin] at h1; exact h1
  have H3 : v.end_ ≤ v.totalPoints := by rw [hmax] at h3; exact h3
  have H5 : v.end_ - v.start ≤ v.totalPoints := by rw [hmin, hmax] at h5; linarith
  constructor
  · intro f p hp0 hp1
    simp only [Viewport.zoom]
    by_cases hA : (v.end_ - v.start) * f < 10
    · rw [if_pos hA]
      exact ⟨⟨h1, h2, h3, h4, h5⟩, hmin, hmax⟩
    rw [if_neg hA]
    by_cases hB : v.totalPoints < (v.end_ - v.start) * f
    · rw [if_pos hB]
      exact ⟨⟨h1, h2, h3, h4, h5⟩, hmin, hmax⟩
    rw [if_neg hB]
    push_neg at hA hB
    have hstot : 10 ≤ v.totalPoints -
        Max.max 0 (v.start + (v.end_ - v.start) * p - (v.end_ - v.start) * f * p) := by
      rcases max_cases (0 : Rat)
          (v.start + (v.end_ - v.start) * p - (v.end_ - v.start) * f * p) with
        ⟨hm, _⟩ | ⟨hm, _⟩
      · rw [hm]
        linarith
      · rw [hm]
        nlinarith [mul_nonneg (sub_nonneg.mpr h4) (sub_nonneg.mpr hp1),
          mul_nonneg (sub_nonneg.mpr hA) hp0]
    have hs0 : (0 : Rat) ≤
        Max.max 0 (v.start + (v.end_ - v.start) * p - (v.end_ - v.start) * f * p) :=
      le_max_left 0 _
    have hwid : 10 + Max.max 0 (v.start + (v.end_ - v.start) * p - (v.end_ - v.start) * f * p) ≤
        Min.min v.totalPoints
          (Max.max 0 (v.start + (v.end_ - v.start) * p - (v.end_ - v.start) * f * p) +
            (v.end_ - v.start) * f) :=
      le_min (by linarith) (by linarith)
    have hetot : Min.min v.totalPoints
          (Max.max 0 (v.start + (v.end_ - v.start) * p - (v.end_ - v.start) * f * p) +
            (v.end_ - v.start) * f) ≤ v.totalPoints := min_le_left _ _
    rw [if_neg (not_lt.mpr (le_max_left (0 : Rat)
      (v.start + (v.end_ - v.start) * p - (v.end_ - v.start) * f * p)))]
    rw [if_neg (not_lt.mpr (min_le_left v.totalPoints
      (Max.max 0 (v.start + (v.end_ - v.start) * p - (v.end_ - v.start) * f * p) +
        (v.end_ - v.start) * f)))]
    refine ⟨⟨?_, ?_, ?_, ?_, ?_⟩, ⟨hmin, hmax⟩⟩ <;> dsimp only
    · rw [hmin]
      exact hs0
    · linarith
    · rw [hmax]
      exact hetot
    · linarith
    · rw [hmin, hmax]
      linarith
  · intro d
    simp only [Viewport.pan]
    by_cases hC : v.start + d < 0
    · rw [if_pos hC]
      dsimp only
      rw [if_neg (not_lt.mpr H5)]
      refine ⟨⟨?_, ?_, ?_, ?_, ?_⟩, ⟨hmin, hmax⟩⟩ <;> dsimp only
      · rw [hmin]
      · linarith
      · rw [hmax]
        linarith
      · linarith
      · rw [hmin, hmax]
        linarith
    · rw [if_neg hC]
      push_neg at hC
      dsimp only
      by_cases hD : v.totalPoints < v.end_ + d
      · rw [if_pos hD]
        refine ⟨⟨?_, ?_, ?_, ?_, ?_⟩, ⟨hmin, hmax⟩⟩ <;> dsimp only
        · rw [hmin]
          linarith
        · linarith
        · rw [hmax]
        · linarith
        · rw [hmin, hmax]
          linarith
      · rw [if_neg hD]
        push_neg at hD
        refine ⟨⟨?_, ?_, ?_, ?_, ?_⟩, ⟨hmin, hmax⟩⟩ <;> dsimp only
        · rw [hmin]
          linarith
        · linarith
        · rw [hmax]
          linarith
        · linarith
        · rw [hmin, hmax]
          linarith

/-- C6 (witness): the amended theorem applied to the concrete viewport over
`[0,1000]`. -/
theorem c6_witness :
    ((Viewport.mkV 1000).zoom (1/2) (1/2)).invariant ∧
    ((Viewport.mkV 1000).pan 100).invariant :=
  ⟨((c6_amended (Viewport.mkV 1000) (by decide)
      (by norm_num [Viewport.mkV, Viewport.invariant])).1 (1/2) (1/2)
      (by norm_num) (by norm_num)).1,
   ((c6_amended (Viewport.mkV 1000) (by decide)
      (by norm_num [Viewport.mkV, Viewport.invariant])).2 100).1⟩

/-! ## Claim C7 (unknown generation profile) -/

/-- C7 (counterexample): after a successful `random-walk` generation the store
holds series buffers, but a `generateData` call with the unknown profile name
`"bogus"` raises no failure and leaves the store emptied: the previous
`SeriesSet` is silently replaced by an empty one. -/
theorem c7_counterexample :
    (generateData rng0 sin0 pi0 "random-walk" (mkServer 2 3)).data ≠ [] ∧
    (generateData rng0 sin0 pi0 "bogus"
      (generateData rng0 sin0 pi0 "random-walk" (mkServer 2 3))).data = [] ∧
    (generateData rng0 sin0 pi0 "bogus"
      (generateData rng0 sin0 pi0 "random-walk" (mkServer 2 3))).dataX = [] := by
  refine ⟨?_, ?_, ?_⟩
  · norm_num [generateData, genProfile, mkServer, rwAll, rwSeries]
    exact List.cons_ne_nil _ _
  · simp [generateData, genProfile]
  · simp [generateData, genProfile]

/-- C7 (amended): `generateData` with a profile name that matches none of the
five supported profiles is not surfaced as an error; it clears the buffers at
entry, matches no generation branch, and therefore silently replaces the
previous `SeriesSet` with an empty one (it leaves `nSeries` unchanged). -/
theorem c7_amended (rng : Nat → Rat) (sinF : Rat → Rat) (piR : Rat) (s : MockServer)
    (type : String)
    (h1 : type ≠ "random-walk") (h2 : type ≠ "variable-sine") (h3 : type ≠ "pulse-wave")
    (h4 : type ≠ "multi-wave") (h5 : type ≠ "sparse-sine") :
    (generateData rng sinF piR type s).data = [] ∧
    (generateData rng sinF piR type s).dataX = [] ∧
    (generateData rng sinF piR type s).nSeries = s.nSeries := by
  rw [generateData]
  rw [genProfile_unknown rng sinF piR type s.nSeries s.nPoints h1 h2 h3 h4 h5]
  exact ⟨rfl, rfl, rfl⟩

/-- C7 (witness): the amended theorem applied at the unknown name `"bogus"`. -/
theorem c7_witness :
    (generateData rng0 sin0 pi0 "bogus" (mkServer 2 3)).data = [] ∧
    (generateData rng0 sin0 pi0 "bogus" (mkServer 2 3)).dataX = [] ∧
    (generateData rng0 sin0 pi0 "bogus" (mkServer 2 3)).nSeries = (mkServer 2 3).nSeries :=
  c7_amended rng0 sin0 pi0 (mkServer 2 3) "bogus"
    (by decide) (by decide) (by decide) (by decide) (by decide)

/-! ## Claim C9 (generation determinism) -/

/-- C9: generation is deterministic.  The profile functions consume the
pseudorandom stream from position 0 (the re-seed at the top of
`generateData`), so two generation calls with the same profile whose size
state (`nSeries`, `nPoints`) coincides produce identical value and timestamp
buffers, regardless of the stored buffers or stream position left by earlier
generations of other profiles. -/
theorem c9_generation_deterministic (rng : Nat → Rat) (sinF : Rat → Rat) (piR : Rat)
    (type : String) (s1 s2 : MockServer)
    (hn : s1.nSeries = s2.nSeries) (hp : s1.nPoints = s2.nPoints) :
    (generateData rng sinF piR type s1).data = (generateData rng sinF piR type s2).data ∧
    (generateData rng sinF piR type s1).dataX = (generateData rng sinF piR type s2).dataX ∧
    (generateData rng sinF piR type s1).nSeries = (generateData rng sinF piR type s2).nSeries := by
  simp only [generateData]
  rw [hn, hp]
  exact ⟨rfl, rfl, rfl⟩

/-- C9 (witness): two servers with equal size state but different buffers and
stream positions (one fresh, one after a `pulse-wave` generation) produce
identical `sparse-sine` output. -/
theorem c9_witness :
    (generateData rng0 sin0 pi0 "sparse-sine" (mkServer 1 5)).data =
      (generateData rng0 sin0 pi0 "sparse-sine"
        (generateData rng0 sin0 pi0 "pulse-wave" (mkServer 1 5))).data ∧
    (generateData rng0 sin0 pi0 "sparse-sine" (mkServer 1 5)).dataX =
      (generateData rng0 sin0 pi0 "sparse-sine"
        (generateData rng0 sin0 pi0 "pulse-wave" (mkServer 1 5))).dataX ∧
    (generateData rng0 sin0 pi0 "sparse-sine" (mkServer 1 5)).nSeries =
      (generateData rng0 sin0 pi0 "sparse-sine"
        (generateData rng0 sin0 pi0 "pulse-wave" (mkServer 1 5))).nSeries :=
  c9_generation_deterministic rng0 sin0 pi0 "sparse-sine" (mkServer 1 5)
    (generateData rng0 sin0 pi0 "pulse-wave" (mkServer 1 5))
    (by simp [generateData, genProfile, mkServer])
    (by simp [generateData, genProfile, mkServer])

/-! ## Claim C10 (profile series-count overrides) -/

/-- C10: every profile except `random-walk` overrides the configured series
count: `variable-sine`, `pulse-wave` and `sparse-sine` produce exactly one
series (and `sparse-sine` one timestamp buffer), `multi-wave` exactly 20,
while `random-walk` honours the configured `nSeries`. -/
theorem c10_profile_series_counts (rng : Nat → Rat) (sinF : Rat → Rat) (piR : Rat)
    (s : MockServer) :
    ((generateData rng sinF piR "variable-sine" s).nSeries = 1 ∧
      (generateData rng sinF piR "variable-sine" s).data.length = 1) ∧
    ((generateData rng sinF piR "pulse-wave" s).nSeries = 1 ∧
      (generateData rng sinF piR "pulse-wave" s).data.length = 1) ∧
    ((generateData rng sinF piR "sparse-sine" s).nSeries = 1 ∧
      (generateData rng sinF piR "sparse-sine" s).data.length = 1 ∧
      (generateData rng sinF piR "sparse-sine" s).dataX.length = 1) ∧
    ((generateData rng sinF piR "multi-wave" s).nSeries = 20 ∧
      (generateData rng sinF piR "multi-wave" s).data.length = 20) ∧
    ((generateData rng sinF piR "random-walk" s).nSeries = s.nSeries ∧
      (generateData rng sinF piR "random-walk" s).data.length = s.nSeries) := by
  have hvs : genProfile rng sinF piR "variable-sine" s.nSeries s.nPoints =
      ([(varSine rng sinF s.nPoints).1], [], 1, (varSine rng sinF s.nPoints).2) := by
    rw [genProfile, if_neg (by decide), if_pos rfl]
  have hpw : genProfile rng sinF piR "pulse-wave" s.nSeries s.nPoints =
      ([(pulseWave rng sinF piR s.nPoints).1], [], 1, (pulseWave rng sinF piR s.nPoints).2) := by
    rw [genProfile, if_neg (by decide), if_neg (by decide), if_pos rfl]
  have hss : genProfile rng sinF piR "sparse-sine" s.nSeries s.nPoints =
      ([(ssPoints rng sinF s.nPoints 0 0).2.1], [(ssPoints rng sinF s.nPoints 0 0).1], 1,
        (ssPoints rng sinF s.nPoints 0 0).2.2) := by
    rw [genProfile, if_neg (by decide), if_neg (by decide), if_neg (by decide),
      if_neg (by decide), if_pos rfl]
  have hmw : genProfile rng sinF piR "multi-wave" s.nSeries s.nPoints =
      ((mwAll rng sinF 20 s.nPoints 20 0 0).1, [], 20, (mwAll rng sinF 20 s.nPoints 20 0 0).2) := by
    rw [genProfile, if_neg (by decide), if_neg (by decide), if_neg (by decide), if_pos rfl]
  have hrw : genProfile rng sinF piR "random-walk" s.nSeries s.nPoints =
      (rwAll rng 0 s.nSeries s.nPoints, [], s.nSeries, s.nSeries * s.nPoints) := by
    rw [genProfile, if_pos rfl]
  refine ⟨⟨?_, ?_⟩, ⟨?_, ?_⟩, ⟨?_, ?_, ?_⟩, ⟨?_, ?_⟩, ⟨?_, ?_⟩⟩ <;>
    simp only [generateData, hvs, hpw, hss, hmw, hrw] <;>
    first
      | rfl
      | exact mwAll_fst_length rng sinF 20 s.nPoints 20 0 0
      | exact rwAll_length rng s.nPoints s.nSeries 0

/-! ## Claim C4 (lod ≤ 0 is not surfaced as an error) -/

theorem binarySearch_single_low : binarySearch [10] (0 : Rat) = 0 := by
  obtain ⟨hk0, hk1, hlow, _⟩ := binarySearch_correct [10] 0 (by simp)
  have hk1b : binarySearch [10] (0 : Rat) ≤ 1 := by simpa using hk1
  rcases (by omega : binarySearch [10] (0 : Rat) = 0 ∨ binarySearch [10] (0 : Rat) = 1) with
    h | h
  · exact h
  · have := hlow 0 (by omega)
    norm_num at this

theorem binarySearch_single_high : binarySearch [10] (20 : Rat) = 1 := by
  obtain ⟨hk0, hk1, _, hhigh⟩ := binarySearch_correct [10] 20 (by simp)
  have hk1b : binarySearch [10] (20 : Rat) ≤ 1 := by simpa using hk1
  rcases (by omega : binarySearch [10] (20 : Rat) = 0 ∨ binarySearch [10] (20 : Rat) = 1) with
    h | h
  · have := hhigh 0 (by omega) (by norm_num)
    norm_num at this
  · exact h

/-- C4 (counterexample): a sparse-mode query with `lod = 0` (and the default
`sampleRateHint = 100`) is not rejected: the engine silently returns a
`sparse` raw result over the padded index range, so no explicit error reaches
the caller. -/
theorem c4_counterexample :
    processRequest ⟨1, 1, 1, [[1]], [[10]], 0⟩ 0 20 0 100 =
      some (.sparse [[1]] [[10]] 0 20 100) := by
  simp only [processRequest]
  rw [if_neg (by norm_num), if_pos (Or.inr (by norm_num : (0 : Rat) < 100))]
  simp only [List.getD]
  norm_num [binarySearch_single_low, binarySearch_single_high, List.range_succ, jsSlice]

/-- C4 (amended): the engine performs no validation of `lod ≤ 0`.  In sparse
mode with `lod ≤ 0 < sampleRateHint` the query silently returns a `sparse`
raw result; in dense mode with a nonempty clamped range the binning loop
(`chunkSize = floor(lod) ≤ 0`) never terminates — no fuel suffices — so no
result and no error ever reach the caller.  (Queries are read-only: the
embedded query functions do not touch the store, so prior state stays
queryable in either case.) -/
theorem c4_amended (srv : MockServer) (s e lod sr : Rat) :
    (srv.dataX.length ≠ 0 → lod ≤ 0 → lod < sr →
      Option.map resultKind (processRequest srv s e lod sr) = some "sparse") ∧
    (srv.dataX = [] → lod ≤ 0 → srv.nSeries ≠ 0 →
      denseStart s < denseEnd srv.nPoints e →
      (∀ fuel : Nat, legacyBinsAux (srv.data.getD 0 []) (denseStart s)
        (denseEnd srv.nPoints e) ⌊lod⌋ fuel = none) ∧
      processRequest srv s e lod sr = none) := by
  constructor
  · intro hdx _ hlt
    exact processRequest_sparse_raw_kind srv s e lod sr hdx (Or.inr hlt)
  · intro hdx hlod hns hrange
    have hlodne : lod ≠ 1 := by
      intro h
      rw [h] at hlod
      norm_num at hlod
    have hc : ⌊lod⌋ ≤ 0 := by
      have := Int.floor_le_floor hlod
      simpa using this
    refine ⟨fun fuel => legacyBinsAux_none _ _ _ hc fuel _ hrange, ?_⟩
    rw [processRequest_dense srv s e lod sr hdx, processLegacyRequest]
    simp only [denseStart_idem, denseEnd_idem, if_neg hlodne]
    obtain ⟨n, hn⟩ : ∃ n, srv.nSeries = n + 1 := ⟨srv.nSeries - 1, by omega⟩
    rw [hn, List.range_succ_eq_map, legacySeriesBins,
      legacyBinsAux_none _ _ _ hc _ _ hrange]

/-- C4 (witness): the amended theorem applied to concrete sparse and dense
servers with `lod = 0`. -/
theorem c4_witness :
    Option.map resultKind (processRequest ⟨1, 1, 1, [[1]], [[10]], 0⟩ 0 20 0 100) =
      some "sparse" ∧
    processRequest ⟨1, 1, 1, [[1]], [], 0⟩ 0 20 0 100 = none :=
  ⟨(c4_amended ⟨1, 1, 1, [[1]], [[10]], 0⟩ 0 20 0 100).1 (by norm_num) (by norm_num)
      (by norm_num),
   ((c4_amended ⟨1, 1, 1, [[1]], [], 0⟩ 0 20 0 100).2 rfl (by norm_num) (by norm_num)
      (by norm_num [denseStart, denseEnd])).2⟩

/-! ## Claim C5 (empty query ranges) -/

/-- C5 (counterexample): the fractional empty range `(0.5, 0.4)` (with
`rangeEnd ≤ rangeStart`) does not yield a zero-length slice in dense mode: the
clamp floors the start to 0 and ceils the end to 1, so the raw payload
contains one sample. -/
theorem c5_counterexample :
    processRequest ⟨1, 10, 10, [[3, 1, 4, 1, 5, 9, 2, 6, 5, 3]], [], 0⟩ (1/2) (2/5) 1 100 =
      some (.raw [[3]] 0 1) ∧ (2/5 : Rat) ≤ 1/2 := by
  constructor
  · rw [processRequest_dense_raw _ _ _ _ rfl]
    have hs : denseStart (1/2 : Rat) = 0 := by
      rw [denseStart]
      norm_num
    have he : denseEnd 10 (2/5 : Rat) = 1 := by
      have hceil : (⌈(2/5 : Rat)⌉ : Int) = 1 := by
        rw [Int.ceil_eq_iff]
        norm_num
      rw [denseEnd, hceil]
      decide
    rw [hs, he]
    norm_num [List.range_succ, jsSlice]
  · norm_num

theorem jsSlice_empty {α : Type} (l : List α) (si ei : Int) (hs : 0 ≤ si) (he2 : 0 ≤ ei)
    (hle : ei ≤ si) : jsSlice l si ei = [] := by
  rw [jsSlice]
  simp only [if_neg (not_lt.mpr hs), if_neg (not_lt.mpr he2)]
  have h := min_le_min hle (le_refl (l.length : Int))
  rw [show ((Min.min ei (l.length : Int)) - Min.min si (l.length : Int)).toNat = 0 from by
    omega]
  exact List.take_zero _

theorem legacySeriesBins_empty (data : List (List Rat)) (j e c : Int) (hje : ¬ j < e) :
    ∀ is : List Nat,
      legacySeriesBins data j e c ((e - j).toNat + 1) is = some (is.map fun _ => []) := by
  intro is
  induction is with
  | nil => rfl
  | cons i rest ih =>
    rw [legacySeriesBins, legacyBinsAux, if_neg hje, ih]
    rfl

/-- C5 (amended): a query with `rangeEnd ≤ rangeStart` never raises an error,
but the payload is empty only under the clamping actually performed: in dense
mode the result covers the clamped interval
`[max(0,⌊rangeStart⌋), min(nPoints,⌈rangeEnd⌉))`, which is empty whenever
`0 ≤ ⌈rangeEnd⌉ ≤ ⌊rangeStart⌋` (in particular for integer arguments) — the
fractional counterexample and JS negative-end slicing fall outside that
condition; in sparse mode a result (raw, with boundary padding, or aggregated)
is always returned, never an error. -/
theorem c5_amended (srv : MockServer) (s e lod sr : Rat) (he : e ≤ s) :
    (srv.dataX = [] → 0 ≤ ⌈e⌉ → ⌈e⌉ ≤ ⌊s⌋ →
      (lod = 1 → processRequest srv s e lod sr =
        some (.raw ((List.range srv.nSeries).map fun _ => [])
          (denseStart s) (denseEnd srv.nPoints e))) ∧
      (lod ≠ 1 → processRequest srv s e lod sr =
        some (.aggregated ((List.range srv.nSeries).map fun _ => [])
          (denseStart s) (denseEnd srv.nPoints e) ⌊lod⌋))) ∧
    (srv.dataX.length ≠ 0 → (processRequest srv s e lod sr).isSome = true) := by
  constructor
  · intro hdx h0 hle
    have hst0 : (0 : Int) ≤ denseStart s := le_max_left 0 _
    have hen0 : (0 : Int) ≤ denseEnd srv.nPoints e :=
      le_min (by positivity) h0
    have hes : denseEnd srv.nPoints e ≤ denseStart s :=
      le_trans (le_trans (min_le_right _ _) hle) (le_max_right 0 _)
    constructor
    · intro hlod
      subst hlod
      rw [processRequest_dense_raw _ _ _ _ hdx]
      congr 2
      refine List.map_congr_left ?_
      intro i _
      exact jsSlice_empty _ _ _ hst0 hen0 hes
    · intro hlod
      rw [processRequest_dense srv s e lod sr hdx, processLegacyRequest]
      simp only [denseStart_idem, denseEnd_idem, if_neg hlod]
      rw [legacySeriesBins_empty srv.data _ _ _ (not_lt.mpr hes)]
  · intro hdx
    rw [processRequest, if_neg hdx]
    by_cases hor : lod = 1 ∨ lod < sr
    · rw [if_pos hor]
      rfl
    · rw [if_neg hor]
      rfl

/-- C5 (witness): the amended theorem applied to concrete dense and sparse
servers with the integer empty range `(2, 1)`. -/
theorem c5_witness :
    processRequest ⟨1, 10, 10, [[3]], [], 0⟩ 2 1 1 100 =
      some (.raw ((List.range 1).map fun _ => ([] : List Rat))
        (denseStart 2) (denseEnd 10 1)) ∧
    (processRequest ⟨1, 1, 1, [[1]], [[10]], 0⟩ 2 1 5 100).isSome = true :=
  ⟨((c5_amended ⟨1, 10, 10, [[3]], [], 0⟩ 2 1 1 100 (by norm_num)).1 rfl (by norm_num)
      (by norm_num)).1 rfl,
   (c5_amended ⟨1, 1, 1, [[1]], [[10]], 0⟩ 2 1 5 100 (by norm_num)).2 (by norm_num)⟩

/-! ## Claim C8 (dense raw queries) -/

/-- C8 (counterexample): for a negative `rangeEnd` the payload is not the
slice over the clamped interval: the claimed interval `[0, min(3,⌈-1⌉))` is
empty, but JS `slice` interprets the negative clamped end relative to the
array length, returning two samples. -/
theorem c8_counterexample :
    rawPayloadAt (processRequest ⟨1, 3, 3, [[1, 2, 3]], [], 0⟩ 0 (-1) 1 100) 0 =
      some [1, 2] ∧
    claimSlice [1, 2, 3] 0 (-1) 3 = [] := by
  constructor
  · rw [processRequest_dense_raw _ _ _ _ rfl]
    have hs : denseStart (0 : Rat) = 0 := by
      rw [denseStart]
      norm_num
    have he : denseEnd 3 (-1 : Rat) = -1 := by
      have hceil : (⌈(-1 : Rat)⌉ : Int) = -1 := by
        rw [Int.ceil_eq_iff]
        norm_num
      rw [denseEnd, hceil]
      decide
    rw [hs, he]
    simp only [rawPayloadAt, List.range_succ]
    norm_num [jsSlice]
    decide
  · rw [claimSlice]
    have hs : denseStart (0 : Rat) = 0 := by
      rw [denseStart]
      norm_num
    have he : denseEnd 3 (-1 : Rat) = -1 := by
      have hceil : (⌈(-1 : Rat)⌉ : Int) = -1 := by
        rw [Int.ceil_eq_iff]
        norm_num
      rw [denseEnd, hceil]
      decide
    rw [hs, he]
    norm_num

theorem jsSlice_eq_claimSlice (l : List Rat) (s e : Rat) (nP : Nat)
    (hlen : l.length = nP) (h0 : 0 ≤ ⌈e⌉) :
    jsSlice l (denseStart s) (denseEnd nP e) = claimSlice l s e nP := by
  have hst0 : (0 : Int) ≤ denseStart s := le_max_left 0 _
  have hen0 : (0 : Int) ≤ denseEnd nP e := le_min (by positivity) h0
  have hennP : denseEnd nP e ≤ (l.length : Int) := by
    rw [hlen]
    exact min_le_left _ _
  rcases lt_or_le (denseStart s) (l.length : Int) with hcase | hcase
  · rw [jsSlice, claimSlice]
    simp only [if_neg (not_lt.mpr hst0), if_neg (not_lt.mpr hen0)]
    rw [min_eq_left (le_of_lt hcase), min_eq_left hennP]
  · rw [jsSlice, claimSlice]
    simp only [if_neg (not_lt.mpr hst0), if_neg (not_lt.mpr hen0)]
    rw [min_eq_right hcase]
    rw [List.drop_eq_nil_of_le (by omega), List.drop_eq_nil_of_le (by omega)]
    simp

/-- C8 (amended): a dense-mode `lod = 1` query returns kind `raw` with, per
series, the value slice over the clamped interval
`[max(0,⌊rangeStart⌋), min(nPoints,⌈rangeEnd⌉))` — provided
`⌈rangeEnd⌉ ≥ 0`; for a negative clamped end JS slice semantics instead count
from the array length (the counterexample).  The end-to-end scenario holds:
after `random-walk` generation with `nSeries = 2, nPoints = 1000`, the query
`(0, 100, lod = 1)` returns two per-series slices of length 100. -/
theorem c8_amended :
    (∀ (srv : MockServer) (s e sr : Rat) (i : Nat), srv.dataX = [] → 0 ≤ ⌈e⌉ →
      i < srv.nSeries → (srv.data.getD i []).length = srv.nPoints →
      rawPayloadAt (processRequest srv s e 1 sr) i =
        some (claimSlice (srv.data.getD i []) s e srv.nPoints) ∧
      Option.map resultKind (processRequest srv s e 1 sr) = some "raw") ∧
    (∀ (rng : Nat → Rat) (sinF : Rat → Rat) (piR : Rat) (i : Nat), i < 2 →
      (rawPayloadAt (processRequest
        (generateData rng sinF piR "random-walk" (mkServer 2 1000)) 0 100 1 100) i).map
          List.length = some 100) := by
  have main : ∀ (srv : MockServer) (s e sr : Rat) (i : Nat), srv.dataX = [] → 0 ≤ ⌈e⌉ →
      i < srv.nSeries → (srv.data.getD i []).length = srv.nPoints →
      rawPayloadAt (processRequest srv s e 1 sr) i =
        some (claimSlice (srv.data.getD i []) s e srv.nPoints) ∧
      Option.map resultKind (processRequest srv s e 1 sr) = some "raw" := by
    intro srv s e sr i hdx h0 hi hlen
    rw [processRequest_dense_raw _ _ _ _ hdx]
    constructor
    · rw [rawPayloadAt, List.getElem?_map, List.getElem?_range hi]
      simp only [Option.map_some']
      rw [jsSlice_eq_claimSlice _ _ _ _ hlen h0]
    · rfl
  refine ⟨main, ?_⟩
  intro rng sinF piR i hi
  have hdx : (generateData rng sinF piR "random-walk" (mkServer 2 1000)).dataX = [] := by
    simp [generateData, genProfile, mkServer]
  have hns : (generateData rng sinF piR "random-walk" (mkServer 2 1000)).nSeries = 2 := by
    simp [generateData, genProfile, mkServer]
  have hnp : (generateData rng sinF piR "random-walk" (mkServer 2 1000)).nPoints = 1000 := by
    simp [generateData, genProfile, mkServer]
  have hdata : (generateData rng sinF piR "random-walk" (mkServer 2 1000)).data =
      rwAll rng 0 2 1000 := by
    simp [generateData, genProfile, mkServer]
  have hleni : ((generateData rng sinF piR "random-walk" (mkServer 2 1000)).data.getD
      i []).length = (generateData rng sinF piR "random-walk" (mkServer 2 1000)).nPoints := by
    rw [hdata, hnp]
    have hlt : i < (rwAll rng 0 2 1000).length := by
      rw [rwAll_length]
      exact hi
    rw [List.getD_eq_getElem _ _ hlt]
    exact rwAll_mem_length rng 1000 2 0 _ (List.getElem_mem hlt)
  obtain ⟨hpay, _⟩ := main (generateData rng sinF piR "random-walk" (mkServer 2 1000))
    0 100 100 i hdx (by norm_num) (by omega) hleni
  rw [hpay]
  simp only [Option.map_some']
  congr 1
  rw [claimSlice, hnp]
  have hs : denseStart (0 : Rat) = 0 := by
    rw [denseStart]
    norm_num
  have he : denseEnd 1000 (100 : Rat) = 100 := by
    rw [denseEnd]
    norm_num
  rw [hs, he, List.length_take, List.length_drop, hleni, hnp]
  norm_num
  omega

/-- C8 (witness): the amended theorem applied to a concrete dense server and
to the end-to-end scenario at series 0. -/
theorem c8_witness :
    rawPayloadAt (processRequest ⟨1, 3, 3, [[1, 2, 3]], [], 0⟩ 0 2 1 100) 0 =
      some (claimSlice [1, 2, 3] 0 2 3) ∧
    (rawPayloadAt (processRequest
      (generateData rng0 sin0 pi0 "random-walk" (mkServer 2 1000)) 0 100 1 100) 0).map
        List.length = some 100 :=
  ⟨((c8_amended.1 ⟨1, 3, 3, [[1, 2, 3]], [], 0⟩ 0 2 100 0 rfl (by norm_num) (by norm_num)
      rfl)).1,
   c8_amended.2 rng0 sin0 pi0 0 (by norm_num)⟩

/-! ## Claim C1 (dense aggregation equals slice min/max) -/

theorem sliceVals_eq_slice (raw : List Rat) (k ce : Int) (hk : 0 ≤ k)
    (hce : ce ≤ (raw.length : Int)) :
    sliceVals raw k ce = (raw.drop k.toNat).take (ce - k).toNat := by
  rw [sliceVals]
  by_cases h : k < ce
  · rw [if_pos h]
    have hkl : k.toNat < raw.length := by omega
    rw [List.getD_eq_getElem _ _ hkl, sliceVals_eq_slice raw (k + 1) ce (by omega) hce,
      List.drop_eq_getElem_cons hkl,
      show (k + 1).toNat = k.toNat + 1 from by omega,
      show (ce - k).toNat = (ce - (k + 1)).toNat + 1 from by omega,
      List.take_succ_cons]
  · rw [if_neg h, show (ce - k).toNat = 0 from by omega, List.take_zero]
termination_by (ce - k).toNat
decreasing_by omega

/-- C1: for a dense-mode query with `lod > 1` the result has kind
`aggregated` with `binWidth = ⌊lod⌋`; the clamped range is partitioned into
chunks of `⌊lod⌋` indices starting at the clamped start (bins exist exactly
for chunk starts below the clamped end), and each emitted `(min, max)` pair
equals the minimum and maximum computed directly over the series' raw value
slice for the same chunk. -/
theorem c1_dense_aggregation (srv : MockServer) (s e lod sr : Rat) (i b : Nat)
    (hdx : srv.dataX = []) (hlod : 1 < lod) (hi : i < srv.nSeries)
    (hlen : (srv.data.getD i []).length = srv.nPoints) :
    Option.map resultKind (processRequest srv s e lod sr) = some "aggregated" ∧
    denseAggStep (processRequest srv s e lod sr) = some ⌊lod⌋ ∧
    (denseStart s + (b : Int) * ⌊lod⌋ < denseEnd srv.nPoints e →
      denseAggPairAt (processRequest srv s e lod sr) i b =
        some (specMin (sliceVals (srv.data.getD i []) (denseStart s + (b : Int) * ⌊lod⌋)
                (Min.min (denseEnd srv.nPoints e) (denseStart s + (b : Int) * ⌊lod⌋ + ⌊lod⌋))),
              specMax (sliceVals (srv.data.getD i []) (denseStart s + (b : Int) * ⌊lod⌋)
                (Min.min (denseEnd srv.nPoints e) (denseStart s + (b : Int) * ⌊lod⌋ + ⌊lod⌋)))) ∧
      sliceVals (srv.data.getD i []) (denseStart s + (b : Int) * ⌊lod⌋)
          (Min.min (denseEnd srv.nPoints e) (denseStart s + (b : Int) * ⌊lod⌋ + ⌊lod⌋)) =
        ((srv.data.getD i []).drop (denseStart s + (b : Int) * ⌊lod⌋).toNat).take
          (Min.min (denseEnd srv.nPoints e) (denseStart s + (b : Int) * ⌊lod⌋ + ⌊lod⌋) -
            (denseStart s + (b : Int) * ⌊lod⌋)).toNat) ∧
    (denseEnd srv.nPoints e ≤ denseStart s + (b : Int) * ⌊lod⌋ →
      denseAggPairAt (processRequest srv s e lod sr) i b = none) := by
  have hc : (1 : Int) ≤ ⌊lod⌋ := by
    rw [Int.le_floor]
    exact_mod_cast le_of_lt hlod
  have hunf := processRequest_dense_agg srv s e lod sr hdx (ne_of_gt hlod) hc
  refine ⟨by rw [hunf]; rfl, by rw [hunf]; rfl, ?_, ?_⟩
  · intro hb
    constructor
    · rw [hunf]
      simp only [denseAggPairAt, List.getElem?_map, List.getElem?_range hi,
        Option.map_some']
      show (denseBinsSpec (srv.data.getD i []) (denseStart s)
        (denseEnd srv.nPoints e) ⌊lod⌋)[b]? = _
      rw [denseBinsSpec_get _ _ _ hc b _ hb, chunkScan_spec]
    · refine sliceVals_eq_slice _ _ _ ?_ ?_
      · have h1 : (0 : Int) ≤ denseStart s := le_max_left 0 _
        have h2 : (0 : Int) ≤ (b : Int) * ⌊lod⌋ := mul_nonneg (by positivity) (by omega)
        omega
      · rw [hlen]
        exact le_trans (min_le_left _ _) (min_le_left _ _)
  · intro hb
    rw [hunf]
    simp only [denseAggPairAt, List.getElem?_map, List.getElem?_range hi,
      Option.map_some']
    show (denseBinsSpec (srv.data.getD i []) (denseStart s)
      (denseEnd srv.nPoints e) ⌊lod⌋)[b]? = _
    rw [denseBinsSpec_get_none _ _ _ b _ hb]

/-- C1 (witness): the theorem applied to a concrete 4-point series with
`lod = 2`: the first chunk `[0, 2)` yields the slice `[1, 5]`. -/
theorem c1_witness :
    Option.map resultKind (processRequest ⟨1, 4, 4, [[1, 5, 2, 9]], [], 0⟩ 0 4 2 100) =
      some "aggregated" ∧
    denseAggPairAt (processRequest ⟨1, 4, 4, [[1, 5, 2, 9]], [], 0⟩ 0 4 2 100) 0 0 =
      some (specMin (sliceVals (([[(1 : Rat), 5, 2, 9]]).getD 0 [])
              (denseStart 0 + (0 : Int) * ⌊(2 : Rat)⌋)
              (Min.min (denseEnd 4 4) (denseStart 0 + (0 : Int) * ⌊(2 : Rat)⌋ + ⌊(2 : Rat)⌋))),
            specMax (sliceVals (([[(1 : Rat), 5, 2, 9]]).getD 0 [])
              (denseStart 0 + (0 : Int) * ⌊(2 : Rat)⌋)
              (Min.min (denseEnd 4 4) (denseStart 0 + (0 : Int) * ⌊(2 : Rat)⌋ + ⌊(2 : Rat)⌋)))) :=
  ⟨(c1_dense_aggregation ⟨1, 4, 4, [[1, 5, 2, 9]], [], 0⟩ 0 4 2 100 0 0 rfl (by norm_num)
      (by norm_num) rfl).1,
   ((c1_dense_aggregation ⟨1, 4, 4, [[1, 5, 2, 9]], [], 0⟩ 0 4 2 100 0 0 rfl (by norm_num)
      (by norm_num) rfl).2.2.1
      (by norm_num [denseStart, denseEnd])).1⟩

/-! ## Claim C3 (grid-aligned sparse aggregation start) -/

/-- C3: a sparse aggregated query returns
`start = ⌊rangeStart/lod⌋ * lod`; every bin boundary is an integer multiple of
`lod` from the domain origin; and for a second query whose `rangeStart`
differs by less than `lod`, the aligned start differs by at most one bin
width, so the two bin grids coincide except for an index shift of at most one
(the first/last partial bin). -/
theorem c3_grid_alignment (srv : MockServer) (s e lod sr : Rat)
    (hdx : srv.dataX.length ≠ 0) (h1 : lod ≠ 1) (hsr : ¬ lod < sr) (hsr0 : 0 < sr) :
    sparseAggStart (processRequest srv s e lod sr) =
      some (((⌊s / lod⌋ : Int) : Rat) * lod) ∧
    (∀ b : Nat, ∃ k : Int,
      ((⌊s / lod⌋ : Int) : Rat) * lod + (b : Rat) * lod = (k : Rat) * lod) ∧
    (∀ s2 : Rat, |s - s2| < lod →
      ∃ d : Int, d.natAbs ≤ 1 ∧
        sparseAggStart (processRequest srv s2 e lod sr) =
          some (((⌊s / lod⌋ : Int) : Rat) * lod + (d : Rat) * lod) ∧
        ∀ b : Nat, ((⌊s2 / lod⌋ : Int) : Rat) * lod + (b : Rat) * lod =
          ((⌊s / lod⌋ : Int) : Rat) * lod + (((b : Int) + d : Int) : Rat) * lod) := by
  have hpos : 0 < lod := lt_of_lt_of_le hsr0 (not_lt.mp hsr)
  refine ⟨?_, ?_, ?_⟩
  · rw [processRequest_sparse_agg srv s e lod sr hdx h1 hsr]
    rfl
  · intro b
    exact ⟨⌊s / lod⌋ + (b : Int), by push_cast; ring⟩
  · intro s2 habs
    have hup : ⌊s2 / lod⌋ ≤ ⌊s / lod⌋ + 1 := by
      have hlt : s2 / lod < s / lod + 1 := by
        rw [div_add' _ _ _ (ne_of_gt hpos), div_lt_div_iff₀ hpos hpos]
        have := abs_lt.mp habs
        nlinarith
      calc ⌊s2 / lod⌋ ≤ ⌊s / lod + 1⌋ := Int.floor_le_floor (le_of_lt hlt)
        _ = ⌊s / lod⌋ + 1 := by rw [Int.floor_add_one]
    have hdown : ⌊s / lod⌋ - 1 ≤ ⌊s2 / lod⌋ := by
      have hlt : s / lod < s2 / lod + 1 := by
        rw [div_add' _ _ _ (ne_of_gt hpos), div_lt_div_iff₀ hpos hpos]
        have := abs_lt.mp habs
        nlinarith
      have := Int.floor_le_floor (le_of_lt hlt)
      rw [Int.floor_add_one] at this
      omega
    refine ⟨⌊s2 / lod⌋ - ⌊s / lod⌋, by omega, ?_, ?_⟩
    · rw [processRequest_sparse_agg srv s2 e lod sr hdx h1 hsr]
      rw [sparseAggStart]
      congr 1
      rw [alignedStartOf]
      push_cast
      ring
    · intro b
      push_cast
      ring

/-- C3 (witness): the theorem applied to a concrete sparse server with
`lod = 10` and starts 15 and 12 (3ms apart). -/
theorem c3_witness :
    sparseAggStart (processRequest ⟨1, 1, 1, [[1]], [[10]], 0⟩ 15 30 10 10) =
      some (((⌊(15 : Rat) / 10⌋ : Int) : Rat) * 10) ∧
    (∃ d : Int, d.natAbs ≤ 1 ∧
      sparseAggStart (processRequest ⟨1, 1, 1, [[1]], [[10]], 0⟩ 12 30 10 10) =
        some (((⌊(15 : Rat) / 10⌋ : Int) : Rat) * 10 + (d : Rat) * 10) ∧
      ∀ b : Nat, ((⌊(12 : Rat) / 10⌋ : Int) : Rat) * 10 + (b : Rat) * 10 =
        ((⌊(15 : Rat) / 10⌋ : Int) : Rat) * 10 + (((b : Int) + d : Int) : Rat) * 10) :=
  ⟨(c3_grid_alignment ⟨1, 1, 1, [[1]], [[10]], 0⟩ 15 30 10 10 (by norm_num) (by norm_num)
      (by norm_num) (by norm_num)).1,
   (c3_grid_alignment ⟨1, 1, 1, [[1]], [[10]], 0⟩ 15 30 10 10 (by norm_num) (by norm_num)
      (by norm_num) (by norm_num)).2.2 12 (by norm_num)⟩

/-! ## Claim C2 (sparse aggregation: gap sentinels and zero clamping) -/

/-- C2: in a sparse aggregated query, a bin whose time window contains no
samples of the series yields the sentinel pair `(0, 0)`, and a bin that has
samples but contains a gap larger than `sampleRateHint` between two
consecutive contributing samples has its `(min, max)` clamped toward zero:
the emitted pair is `(min(min,0), max(max,0))` of the direct window
minimum/maximum. -/
theorem c2_sparse_gap_bins (srv : MockServer) (s e lod sr : Rat) (i b : Nat)
    (X Y : List Rat)
    (hdx : srv.dataX.length ≠ 0) (h1 : lod ≠ 1) (hsr : ¬ lod < sr) (hsr0 : 0 < sr)
    (hX : srv.dataX.getD i [] = X) (hY : srv.data.getD i [] = Y)
    (hsort : List.Pairwise (· ≤ ·) X) (hi : i < srv.nSeries)
    (hb : b < binCountOf s e lod) :
    (windowOf (X.zip Y) (alignedStartOf s lod + (b : Rat) * lod)
        (alignedStartOf s lod + (b : Rat) * lod + lod) = [] →
      sparseAggPairAt (processRequest srv s e lod sr) i b = some (0, 0)) ∧
    (∀ mn mx : Rat,
      specMin ((windowOf (X.zip Y) (alignedStartOf s lod + (b : Rat) * lod)
        (alignedStartOf s lod + (b : Rat) * lod + lod)).map Prod.snd) = some mn →
      specMax ((windowOf (X.zip Y) (alignedStartOf s lod + (b : Rat) * lod)
        (alignedStartOf s lod + (b : Rat) * lod + lod)).map Prod.snd) = some mx →
      hasGapB sr ((windowOf (X.zip Y) (alignedStartOf s lod + (b : Rat) * lod)
        (alignedStartOf s lod + (b : Rat) * lod + lod)).map Prod.fst) = true →
      sparseAggPairAt (processRequest srv s e lod sr) i b =
        some (Min.min mn 0, Max.max mx 0)) := by
  have hpos : 0 < lod := lt_of_lt_of_le hsr0 (not_lt.mp hsr)
  have hunf := processRequest_sparse_agg srv s e lod sr hdx h1 hsr
  have hpair : sparseAggPairAt (processRequest srv s e lod sr) i b =
      (sparseBinsAux (alignedStartOf s lod) lod sr
        ((X.zip Y).drop (binarySearch X (alignedStartOf s lod)).toNat) 0
        (binCountOf s e lod))[b]? := by
    rw [hunf]
    simp only [sparseAggPairAt, List.getElem?_map, List.getElem?_range hi, Option.map_some']
    rw [hX, hY]
    rfl
  obtain ⟨hbs0, hbs1, hbslow, hbshigh⟩ := binarySearch_correct X (alignedStartOf s lod) hsort
  have hsorted : ptsSorted ((X.zip Y).drop (binarySearch X (alignedStartOf s lod)).toNat) :=
    ptsSorted_drop _ (ptsSorted_zip X Y hsort)
  have hge : ∀ p ∈ (X.zip Y).drop (binarySearch X (alignedStartOf s lod)).toNat,
      alignedStartOf s lod + ((0 : Nat) : Rat) * lod ≤ p.1 := by
    intro p hp
    rw [Nat.cast_zero, zero_mul, add_zero]
    rw [List.mem_iff_getElem] at hp
    obtain ⟨m, hm, hpm⟩ := hp
    rw [List.getElem_drop] at hpm
    have hmlen : (binarySearch X (alignedStartOf s lod)).toNat + m < (X.zip Y).length := by
      rw [List.length_drop] at hm
      omega
    have hXlen : (binarySearch X (alignedStartOf s lod)).toNat + m < X.length := by
      rw [List.length_zip] at hmlen
      omega
    have hval := hbshigh ((binarySearch X (alignedStartOf s lod)).toNat + m) (by omega) hXlen
    rw [List.getD_eq_getElem _ _ hXlen] at hval
    rw [← hpm, List.getElem_zip]
    exact hval
  have hbin := sparseBinsAux_get (alignedStartOf s lod) lod sr (le_of_lt hpos)
    (binCountOf s e lod) b 0 _ hsorted hge hb
  simp only [Nat.zero_add] at hbin
  have hwfull : windowOf ((X.zip Y).drop (binarySearch X (alignedStartOf s lod)).toNat)
      (alignedStartOf s lod + (b : Rat) * lod)
      (alignedStartOf s lod + (b : Rat) * lod + lod) =
      windowOf (X.zip Y) (alignedStartOf s lod + (b : Rat) * lod)
      (alignedStartOf s lod + (b : Rat) * lod + lod) := by
    rw [windowOf, windowOf]
    refine filter_drop_of_false _ _ _ ?_
    intro idx hidx hlt
    have hXlen : idx < X.length := by
      rw [List.length_zip] at hidx
      omega
    have hlow := hbslow idx (by omega)
    rw [List.getD_eq_getElem _ _ hXlen] at hlow
    rw [List.getElem_zip]
    have hblod : (0 : Rat) ≤ (b : Rat) * lod := mul_nonneg (by positivity) (le_of_lt hpos)
    simp only [Bool.and_eq_false_iff, decide_eq_false_iff_not, not_le]
    left
    dsimp only
    linarith
  rw [hwfull] at hbin
  constructor
  · intro hwin
    rw [hpair, hbin, hwin]
    rfl
  · intro mn mx hmn hmx hgap
    rw [hpair, hbin]
    cases hwincase : windowOf (X.zip Y) (alignedStartOf s lod + (b : Rat) * lod)
        (alignedStartOf s lod + (b : Rat) * lod + lod) with
    | nil =>
      rw [hwincase] at hmn
      simp [specMin] at hmn
    | cons p rest =>
      obtain ⟨t, v⟩ := p
      rw [hwincase] at hmn hmx hgap
      rw [specMin_window] at hmn
      rw [specMax_window] at hmx
      rw [List.map_cons, hasGapB_gapFrom] at hgap
      rw [accOf_char, emitBin_gap _ hgap]
      rw [Option.some.injEq] at hmn hmx
      rw [hmn, hmx]

/-- C2 (witness): the theorem applied to a concrete sparse series with
timestamps `[0, 5, 50, 300]` and `lod = 100`, `sampleRateHint = 10`: bin 0
has an internal 45ms gap and is zero-clamped, bin 1 is empty and yields the
`(0, 0)` sentinel. -/
theorem c2_witness :
    sparseAggPairAt (processRequest ⟨1, 4, 4, [[3, -2, 7, 4]], [[0, 5, 50, 300]], 0⟩
      0 400 100 10) 0 0 = some (Min.min (-2) 0, Max.max 7 0) ∧
    sparseAggPairAt (processRequest ⟨1, 4, 4, [[3, -2, 7, 4]], [[0, 5, 50, 300]], 0⟩
      0 400 100 10) 0 1 = some (0, 0) := by
  have h0 : (⌊(0 : Rat) / 100⌋ : Int) = 0 := by norm_num
  have hbc : binCountOf 0 400 100 = 4 := by
    rw [binCountOf, alignedStartOf, h0]
    have h2 : ((400 : Rat) - ((0 : Int) : Rat) * 100) / 100 = 4 := by norm_num
    rw [h2]
    have h3 : (⌈(4 : Rat)⌉ : Int) = 4 := by
      rw [Int.ceil_eq_iff]
      norm_num
    rw [h3]
    rfl
  have hal : alignedStartOf 0 100 = 0 := by
    rw [alignedStartOf, h0]
    norm_num
  have hzip : (([(0 : Rat), 5, 50, 300]).zip ([(3 : Rat), -2, 7, 4])) =
      [(0, 3), (5, -2), (50, 7), (300, 4)] := rfl
  constructor
  · refine (c2_sparse_gap_bins ⟨1, 4, 4, [[3, -2, 7, 4]], [[0, 5, 50, 300]], 0⟩
      0 400 100 10 0 0 [0, 5, 50, 300] [3, -2, 7, 4]
      (by norm_num) (by norm_num) (by norm_num) (by norm_num) rfl rfl (by decide)
      (by norm_num) (by rw [hbc]; norm_num)).2 (-2) 7 ?_ ?_ ?_
    · rw [hal, hzip]
      norm_num [windowOf, specMin, min_def]
    · rw [hal, hzip]
      norm_num [windowOf, specMax, max_def]
    · rw [hal, hzip]
      norm_num [windowOf, hasGapB]
  · refine (c2_sparse_gap_bins ⟨1, 4, 4, [[3, -2, 7, 4]], [[0, 5, 50, 300]], 0⟩
      0 400 100 10 0 1 [0, 5, 50, 300] [3, -2, 7, 4]
      (by norm_num) (by norm_num) (by norm_num) (by norm_num) rfl rfl (by decide)
      (by norm_num) (by rw [hbc]; norm_num)).1 ?_
    rw [hal, hzip]
    norm_num [windowOf]

end CanvasGraph
